import Mathlib

/-!
Shallow embedding of src/src/modules/history_backend_mem.c (the in-memory
channel history backend with optional encrypted persistence).

Modelling conventions:
* The doubly-linked list of `HistoryLogLine` entries of a log is a Lean
  `List`, head first (head = earliest entry, tail = latest), matching the
  head-to-tail walks of the C code.
* C machine integers (`int`, `long`, `time_t`) are `Int`; the values involved
  are tiny compared to the machine ranges, and every claim is about their
  exact arithmetic, not overflow.  `uint32_t` magic/version values are `Nat`.
* `server_time_to_unix_time` and the wall clock are external to the file:
  they are threaded through as parameters `pt : Option String → Int`
  (the parser applied to the value of a "time" message tag, which may be
  NULL in C, hence `Option String`) and `ns : String` (the RFC3339 string
  the code synthesizes from `gettimeofday` when the tag is absent), together
  with `now : Int` for `TStime()`.
* The opaque `unrealdb` primitive is modelled as a list of typed items
  (`DBItem`); the typed read calls consume the list in order and fail on a
  type mismatch, which models a framing/corruption error.
-/

/-- One message tag, a `(name, value)` pair of C strings; either pointer can
be NULL in the C struct, hence both fields are `Option String`. -/
structure MessageTag where
  name : Option String
  value : Option String
deriving DecidableEq, Repr

/-- One stored history line: timestamp `t` (unix seconds, from the "time"
tag), the duplicated message tags, and the payload line. -/
structure HistoryLogLine where
  t : Int
  mtags : List MessageTag
  line : String
deriving DecidableEq, Repr

/-- One per-object log (struct HistoryLogObject): the entry list (head
first), the cached `num_lines` counter, the cached `oldest_t`, the two
retention limits and the dirty flag. -/
structure HistoryLogObject where
  name : String
  entries : List HistoryLogLine
  num_lines : Int
  oldest_t : Int
  max_lines : Int
  max_time : Int
  dirty : Bool
deriving DecidableEq, Repr

/-- The replay filter (struct HistoryFilter): `last_seconds` is a C `long`,
`last_lines` a C `int`; 0 plays the role of an absent field. -/
structure HistoryFilter where
  last_seconds : Int
  last_lines : Int
deriving DecidableEq, Repr

/-- The replay result (struct HistoryResult): the requested object name and
the duplicated log slice. -/
structure HistoryResult where
  object : String
  log : List HistoryLogLine
deriving DecidableEq, Repr

/-- `find_mtag(mtags, "time")`: first tag whose name matches (C strcmp). -/
def find_mtag (mtags : List MessageTag) (nm : String) : Option MessageTag :=
  mtags.find? (fun m => m.name == some nm)

/-- `hbm_duplicate_mtags`: duplicate the tag list (value-identical in the
model), ensure a "time" tag exists (prepending a synthesized one with the
current wall-clock string `ns` when absent, as `AddListItem` prepends), and
return the tag list together with `l->t = server_time_to_unix_time(value)`. -/
def hbm_duplicate_mtags (pt : Option String → Int) (ns : String)
    (mtags : List MessageTag) : List MessageTag × Int :=
  match find_mtag mtags "time" with
  | some n => (mtags, pt n.value)
  | none => (⟨some "time", some ns⟩ :: mtags, pt (some ns))

/-- The `oldest_t` update used when appending and when rescanning:
`if ((l->t < h->oldest_t) || (h->oldest_t == 0)) h->oldest_t = l->t;`
(the rescans in `hbm_history_cleanup` test the two disjuncts in the other
order, which is logically the same). -/
def hbm_upd_oldest (o t : Int) : Int :=
  if t < o ∨ o = 0 then t else o

/-- `hbm_history_add_line`: append a fresh line at the tail, set dirty,
bump `num_lines`, update `oldest_t`. -/
def hbm_history_add_line (pt : Option String → Int) (ns : String)
    (h : HistoryLogObject) (mtags : List MessageTag) (line : String) :
    HistoryLogObject :=
  let p := hbm_duplicate_mtags pt ns mtags
  { h with entries := h.entries ++ [⟨p.2, p.1, line⟩],
           dirty := true,
           num_lines := h.num_lines + 1,
           oldest_t := hbm_upd_oldest h.oldest_t p.2 }

/-- `hbm_history_del_line(h, h->head)`: unlink the head entry, set dirty,
decrement `num_lines`.  `oldest_t` is deliberately not touched (the C
comment delegates that to the caller). -/
def hbm_del_head (h : HistoryLogObject) : HistoryLogObject :=
  { h with entries := h.entries.tail,
           num_lines := h.num_lines - 1,
           dirty := true }

/-- The unconditional tail of `hbm_history_add`: evict the head if
`num_lines >= max_lines`, then append the new line. -/
def hbm_add_step (pt : Option String → Int) (ns : String)
    (h : HistoryLogObject) (mtags : List MessageTag) (line : String) :
    HistoryLogObject :=
  hbm_history_add_line pt ns
    (if h.max_lines ≤ h.num_lines then hbm_del_head h else h) mtags line

/-- `hbm_history_add` on a given log object.  When `max_lines == 0` the code
warns the operators and then aborts under DEBUGMODE (modelled as `none`) or
falls back to the 50/86400 defaults in release mode.  The returned `Bool` is
true iff the host-side warning was emitted. -/
def hbm_history_add_core (debug : Bool) (pt : Option String → Int)
    (ns : String) (h : HistoryLogObject) (mtags : List MessageTag)
    (line : String) : Option (HistoryLogObject × Bool) :=
  if h.max_lines = 0 then
    if debug then none
    else
      some (hbm_add_step pt ns
        { h with max_lines := 50, max_time := 86400 } mtags line, true)
  else
    some (hbm_add_step pt ns h mtags line, false)

/-- The first walk of `hbm_history_cleanup` (time pass): delete entries with
`l->t < redline`, and recompute `oldest_t` over the survivors starting from
the 0 the caller just stored.  Arguments thread the live `num_lines`,
`oldest_t` and `dirty` fields; returns (surviving entries, num_lines,
oldest_t, dirty). -/
def cleanup_time_walk (redline : Int) :
    List HistoryLogLine → Int → Int → Bool →
      List HistoryLogLine × Int × Int × Bool
  | [], n, o, d => ([], n, o, d)
  | l :: ls, n, o, d =>
    if l.t < redline then
      cleanup_time_walk redline ls (n - 1) o true
    else
      let r := cleanup_time_walk redline ls n (hbm_upd_oldest o l.t) d
      (l :: r.1, r.2)

/-- The second walk of `hbm_history_cleanup` (line-count pass): delete from
the head while `num_lines > max_lines` (the test re-reads the decremented
counter), then recompute `oldest_t` over the remainder. -/
def cleanup_lines_walk (maxl : Int) :
    List HistoryLogLine → Int → Int → Bool →
      List HistoryLogLine × Int × Int × Bool
  | [], n, o, d => ([], n, o, d)
  | l :: ls, n, o, d =>
    if maxl < n then
      cleanup_lines_walk maxl ls (n - 1) o true
    else
      let r := cleanup_lines_walk maxl ls n (hbm_upd_oldest o l.t) d
      (l :: r.1, r.2)

/-- The `max_time` enforcement of `hbm_history_cleanup`: only entered when
`oldest_t < redline`; stores `oldest_t = 0` and runs the deleting walk. -/
def hbm_cleanup_time_pass (redline : Int) (h : HistoryLogObject) :
    HistoryLogObject :=
  if h.oldest_t < redline then
    let r := cleanup_time_walk redline h.entries h.num_lines 0 h.dirty
    { h with entries := r.1, num_lines := r.2.1, oldest_t := r.2.2.1,
             dirty := r.2.2.2 }
  else h

/-- The `max_lines` enforcement of `hbm_history_cleanup`: only entered when
`num_lines > max_lines`; stores `oldest_t = 0` and runs the deleting walk. -/
def hbm_cleanup_lines_pass (h : HistoryLogObject) : HistoryLogObject :=
  if h.max_lines < h.num_lines then
    let r := cleanup_lines_walk h.max_lines h.entries h.num_lines 0 h.dirty
    { h with entries := r.1, num_lines := r.2.1, oldest_t := r.2.2.1,
             dirty := r.2.2.2 }
  else h

/-- `hbm_history_cleanup`: compute `redline = TStime() - h->max_time`, then
enforce `max_time` first and `max_lines` second.  (The time pass changes
neither `max_time` nor `max_lines`, so computing the redline up front is
exactly the C control flow.) -/
def hbm_history_cleanup (now : Int) (h : HistoryLogObject) :
    HistoryLogObject :=
  hbm_cleanup_lines_pass (hbm_cleanup_time_pass (now - h.max_time) h)

/-- A freshly inserted log object (`hbm_find_or_add_object` on a miss):
`safe_alloc` zeroes every field. -/
def hbm_new_object (name : String) : HistoryLogObject :=
  ⟨name, [], 0, 0, 0, 0, false⟩

/-- `hbm_history_set_limit` applied to a given log: overwrite the limits and
immediately run `hbm_history_cleanup`. -/
def hbm_history_set_limit (now : Int) (h : HistoryLogObject)
    (maxl maxt : Int) : HistoryLogObject :=
  hbm_history_cleanup now { h with max_lines := maxl, max_time := maxt }

/-- `duplicate_log_line`: deep copy of a line; the copy re-runs
`hbm_duplicate_mtags`, so its `t` is re-parsed from the "time" tag. -/
def duplicate_log_line (pt : Option String → Int) (ns : String)
    (l : HistoryLogLine) : HistoryLogLine :=
  let p := hbm_duplicate_mtags pt ns l.mtags
  ⟨p.2, p.1, l.line⟩

/-- The emitting walk of `hbm_history_request`: the C condition is
`l->t >= redline && (++cnt > lines_to_skip)`, so the counter is only bumped
on entries inside the age window. -/
def request_walk (pt : Option String → Int) (ns : String) (redline : Int) :
    List HistoryLogLine → Int → Int → List HistoryLogLine
  | [], _, _ => []
  | l :: ls, cnt, skip =>
    if redline ≤ l.t then
      if skip < cnt + 1 then
        duplicate_log_line pt ns l :: request_walk pt ns redline ls (cnt + 1) skip
      else
        request_walk pt ns redline ls (cnt + 1) skip
    else
      request_walk pt ns redline ls cnt skip

/-- The redline computation of `hbm_history_request`:
`if (filter && filter->last_seconds && (filter->last_seconds < h->max_time))
 redline = TStime() - filter->last_seconds; else redline = TStime() - h->max_time;` -/
def hbm_request_redline (now : Int) (h : HistoryLogObject) :
    Option HistoryFilter → Int
  | some f =>
    if f.last_seconds ≠ 0 ∧ f.last_seconds < h.max_time then
      now - f.last_seconds
    else
      now - h.max_time
  | none => now - h.max_time

/-- The `lines_to_skip` computation of `hbm_history_request`:
`if (filter && (lines_sendable > filter->last_lines))
 lines_to_skip = lines_sendable - filter->last_lines;` (0 otherwise). -/
def hbm_request_skip (sendable : Int) : Option HistoryFilter → Int
  | some f => if f.last_lines < sendable then sendable - f.last_lines else 0
  | none => 0

/-- `hbm_history_request` on an already-found log object: compute the
redline (the filter may only tighten the log's own `max_time`), count the
sendable lines in a first walk, derive `lines_to_skip`, and emit the
remaining window in a second walk. -/
def hbm_history_request_log (pt : Option String → Int) (ns : String)
    (now : Int) (h : HistoryLogObject) (object : String)
    (filter : Option HistoryFilter) : HistoryResult :=
  let redline : Int := hbm_request_redline now h filter
  let lines_sendable : Int :=
    ((h.entries.filter (fun l => decide (redline ≤ l.t))).length : Int)
  ⟨object,
    request_walk pt ns redline h.entries 0
      (hbm_request_skip lines_sendable filter)⟩

/-- `hbm_find_object`: hash the name (siphash_nocase, modelled as an
arbitrary function parameter, reduced mod the table size) and scan that
bucket chain with `strcasecmp`. -/
def hbm_find_object (hash : String → Nat)
    (table : Nat → List HistoryLogObject) (object : String) :
    Option HistoryLogObject :=
  (table (hash object % 1019)).find? (fun h => object.toLower == h.name.toLower)

/-- `hbm_history_request` at the store level: NULL when the object has no
log, otherwise a fresh result whose `object` field is a copy of the
requested name. -/
def hbm_history_request_store (pt : Option String → Int) (ns : String)
    (now : Int) (hash : String → Nat)
    (table : Nat → List HistoryLogObject) (object : String)
    (filter : Option HistoryFilter) : Option HistoryResult :=
  match hbm_find_object hash table object with
  | none => none
  | some h => some (hbm_history_request_log pt ns now h object filter)

/-- An operation of the claims' per-log state machine: an `add` (with its
message tags, payload and the wall-clock string of the moment) or a `tick`
(the expiry sweep visiting this log at time `now`). -/
inductive HistOp where
  | add (mtags : List MessageTag) (line : String) (ns : String)
  | tick (now : Int)
deriving Repr

/-- Apply one operation to a log; an `add` that aborts (DEBUGMODE with
`max_lines == 0`) yields `none`. -/
def apply_op (debug : Bool) (pt : Option String → Int)
    (h : HistoryLogObject) : HistOp → Option HistoryLogObject
  | .add mtags line ns =>
    (hbm_history_add_core debug pt ns h mtags line).map Prod.fst
  | .tick now => some (hbm_history_cleanup now h)

/-- Apply a sequence of operations left to right. -/
def apply_ops (debug : Bool) (pt : Option String → Int)
    (h : HistoryLogObject) : List HistOp → Option HistoryLogObject
  | [] => some h
  | op :: ops =>
    match apply_op debug pt h op with
    | none => none
    | some h2 => apply_ops debug pt h2 ops

/-- Minimum timestamp of a list of entries, 0 when empty (the value
`oldest_t` takes for an empty log). -/
def min_t : List HistoryLogLine → Int
  | [] => 0
  | l :: ls => ls.foldl (fun a x => min a x.t) l.t

/-- The `oldest_t` recomputation fold used by the cleanup walks. -/
def foldOld (o : Int) (es : List HistoryLogLine) : Int :=
  es.foldl (fun a l => hbm_upd_oldest a l.t) o

/-- An entry is well formed when its `t` field agrees with its "time"
message tag, which holds for every entry that was created by
`hbm_history_add_line`. -/
def EntryWF (pt : Option String → Int) (l : HistoryLogLine) : Prop :=
  ∃ m, find_mtag l.mtags "time" = some m ∧ pt m.value = l.t

/-! ## The persistence codec -/

/-- One typed item of the opaque encrypted DB stream. -/
inductive DBItem where
  | i32 (v : Nat)
  | i64 (v : Int)
  | str (s : Option String)
deriving DecidableEq, Repr

def HISTORYDB_MAGIC_FILE_START : Nat := 0xFEFEFEFE
def HISTORYDB_MAGIC_FILE_END : Nat := 0xEFEFEFEF
def HISTORYDB_MAGIC_ENTRY_START : Nat := 0xFFFFFFFF
def HISTORYDB_MAGIC_ENTRY_END : Nat := 0xEEEEEEEE

/-- `unrealdb_read_int32`: consume one 32-bit item; a type mismatch is a
read/corruption error. -/
def rd_i32 : List DBItem → Option (Nat × List DBItem)
  | DBItem.i32 v :: rest => some (v, rest)
  | _ => none

/-- `unrealdb_read_int64`. -/
def rd_i64 : List DBItem → Option (Int × List DBItem)
  | DBItem.i64 v :: rest => some (v, rest)
  | _ => none

/-- `unrealdb_read_str` (the primitive distinguishes a NULL string). -/
def rd_str : List DBItem → Option (Option String × List DBItem)
  | DBItem.str s :: rest => some (s, rest)
  | _ => none

/-- The items `hbm_write_db` emits for one history line: ENTRY_START magic,
the timestamp, each tag as a name/value string pair, a NULL/NULL
terminator pair, the payload and the ENTRY_END magic. -/
def hbm_write_entry (l : HistoryLogLine) : List DBItem :=
  [DBItem.i32 HISTORYDB_MAGIC_ENTRY_START, DBItem.i64 l.t]
    ++ (l.mtags.map (fun m => [DBItem.str m.name, DBItem.str m.value])).flatten
    ++ [DBItem.str none, DBItem.str none, DBItem.str (some l.line),
        DBItem.i32 HISTORYDB_MAGIC_ENTRY_END]

/-- The item stream `hbm_write_db` emits for a whole log: FILE_START magic,
version 5000, the configured prehash and posthash, the object name, the two
limits, every entry head-to-tail, and the FILE_END magic. -/
def hbm_write_db_items (pre post : String) (h : HistoryLogObject) :
    List DBItem :=
  [DBItem.i32 HISTORYDB_MAGIC_FILE_START, DBItem.i32 5000,
   DBItem.str (some pre), DBItem.str (some post), DBItem.str (some h.name),
   DBItem.i64 h.max_lines, DBItem.i64 h.max_time]
    ++ (h.entries.map hbm_write_entry).flatten
    ++ [DBItem.i32 HISTORYDB_MAGIC_FILE_END]

/-- The inner tag-reading loop of `hbm_read_db`: read string pairs until the
NULL/NULL terminator, appending each reconstructed tag (`AppendListItem`
keeps the on-disk order). -/
def rd_mtags : List DBItem → List MessageTag →
    Option (List MessageTag × List DBItem)
  | DBItem.str a :: DBItem.str b :: rest, acc =>
    if a = none ∧ b = none then some (acc, rest)
    else rd_mtags rest (acc ++ [⟨a, b⟩])
  | _, _ => none

/-- The entry-reading loop of `hbm_read_db`, fuelled by the length of the
stream (the C loop consumes at least one item per iteration, so any fuel
larger than the stream length is enough; running out of fuel is `none`,
which is unreachable on streams produced by `hbm_write_db_items`).
Each parsed entry is fed to `hbm_history_add` on the already-found log;
the timestamp item is read and then ignored, exactly as in the C code
(`add` re-derives `t` from the "time" tag).  A NULL payload string would
make the C code crash in `strlen`; the model treats it as a failed read,
a divergence no claim exercises. -/
def rd_entry_loop (debug : Bool) (pt : Option String → Int) (ns : String) :
    Nat → HistoryLogObject → List DBItem → Option HistoryLogObject
  | 0, _, _ => none
  | fuel + 1, h, items =>
    match rd_i32 items with
    | none => none
    | some (magic, r1) =>
      if magic = HISTORYDB_MAGIC_FILE_END then some h
      else if magic ≠ HISTORYDB_MAGIC_ENTRY_START then none
      else
        match rd_i64 r1 with
        | none => none
        | some (_, r2) =>
          match rd_mtags r2 [] with
          | none => none
          | some (mtags, r3) =>
            match rd_str r3 with
            | none => none
            | some (none, _) => none
            | some (some line, r4) =>
              match rd_i32 r4 with
              | none => none
              | some (m2, r5) =>
                if m2 ≠ HISTORYDB_MAGIC_ENTRY_END then none
                else
                  match hbm_history_add_core debug pt ns h mtags line with
                  | none => none
                  | some (h2, _) => rd_entry_loop debug pt ns fuel h2 r5

/-- Outcome of `hbm_read_db` on one file. -/
inductive HbmReadResult where
  | failed
  | deletedNoObject
  | loaded (h : HistoryLogObject)
deriving DecidableEq, Repr

/-- `hbm_read_db` on an opened item stream: validate FILE_START, the
version window 4999..5000, the prehash/posthash against the master values,
read the object name and the two (unused) limits, look the object up
(a missing object deletes the file and reports success), then run the entry
loop and finally clear the log's dirty flag.  `failed` is the C `return 0`
path, which makes the caller quarantine the file. -/
def hbm_read_db_items (debug : Bool) (pt : Option String → Int) (ns : String)
    (masterPre masterPost : String)
    (lookup : String → Option HistoryLogObject)
    (items : List DBItem) : HbmReadResult :=
  match rd_i32 items with
  | none => .failed
  | some (magic, r1) =>
    if magic ≠ HISTORYDB_MAGIC_FILE_START then .failed
    else
      match rd_i32 r1 with
      | none => .failed
      | some (version, r2) =>
        if version < 4999 then .failed
        else if 5000 < version then .failed
        else
          match rd_str r2 with
          | none => .failed
          | some (prehash, r3) =>
            match rd_str r3 with
            | none => .failed
            | some (posthash, r4) =>
              if prehash ≠ some masterPre ∨ posthash ≠ some masterPost then
                .failed
              else
                match rd_str r4 with
                | none => .failed
                | some (none, _) => .failed
                | some (some object, r5) =>
                  match rd_i64 r5 with
                  | none => .failed
                  | some (_, r6) =>
                    match rd_i64 r6 with
                    | none => .failed
                    | some (_, r7) =>
                      match lookup object with
                      | none => .deletedNoObject
                      | some h =>
                        match rd_entry_loop debug pt ns (r7.length + 1) h r7 with
                        | none => .failed
                        | some h2 => .loaded { h2 with dirty := false }

/-- What the directory scan `hbm_read_dbs` does with one file, depending on
the outcome of `hbm_read_db`: `keep` leaves the file in place, `unlinkOriginal`
is the missing-object path (the file is deleted), and `quarantine` is the
error path (`return 0`), which moves the file to `directory/bad/name`. -/
inductive ScanAction where
  | keep
  | unlinkOriginal
  | quarantine
deriving DecidableEq, Repr

/-- The per-file decision of `hbm_read_dbs`. -/
def hbm_scan_file_action (debug : Bool) (pt : Option String → Int)
    (ns : String) (masterPre masterPost : String)
    (lookup : String → Option HistoryLogObject)
    (items : List DBItem) : ScanAction :=
  match hbm_read_db_items debug pt ns masterPre masterPost lookup items with
  | .failed => .quarantine
  | .deletedNoObject => .unlinkOriginal
  | .loaded _ => .keep

/-- `hbm_read_masterdb` on a successfully opened item stream: it reads the
version, the prehash and the posthash and returns success; note that the
version value is never inspected. -/
def hbm_read_masterdb_items (items : List DBItem) :
    Option (Nat × Option String × Option String) :=
  match rd_i32 items with
  | none => none
  | some (version, r1) =>
    match rd_str r1 with
    | none => none
    | some (pre, r2) =>
      match rd_str r2 with
      | none => none
      | some (post, _) => some (version, pre, post)

/-! ## The expiry scheduler -/

def HISTORY_BACKEND_MEM_HASH_TABLE_SIZE : Nat := 1019

def HISTORY_SPREAD : Nat := 60

/-- `HISTORY_BACKEND_MEM_HASH_TABLE_SIZE / HISTORY_SPREAD` with C integer
division, i.e. 16 in a release build. -/
def HISTORY_CLEAN_PER_LOOP : Nat :=
  HISTORY_BACKEND_MEM_HASH_TABLE_SIZE / HISTORY_SPREAD

/-- `n` iterations of the body of the `do/while` loop of
`history_mem_clean`: visit the bucket at the cursor, then advance the
cursor, wrapping at the table size. -/
def clean_iters (c : Nat) : Nat → List Nat × Nat
  | 0 => ([], c)
  | n + 1 =>
    let c2 := if HISTORY_BACKEND_MEM_HASH_TABLE_SIZE ≤ c + 1 then 0 else c + 1
    let r := clean_iters c2 n
    (c :: r.1, r.2)

/-- One tick of `history_mem_clean` starting from cursor `c`: the
`do { ... } while (loopcnt++ < HISTORY_CLEAN_PER_LOOP)` loop runs its body
`HISTORY_CLEAN_PER_LOOP + 1` times (the post-increment test happens after
each body execution).  Returns (visited buckets, new cursor). -/
def history_mem_clean_tick (c : Nat) : List Nat × Nat :=
  clean_iters c (HISTORY_CLEAN_PER_LOOP + 1)

/-- All buckets visited by `k` consecutive ticks starting at cursor `c`. -/
def clean_ticks (c : Nat) : Nat → List Nat
  | 0 => []
  | k + 1 =>
    (history_mem_clean_tick c).1 ++ clean_ticks (history_mem_clean_tick c).2 k

/-! ## Supporting lemmas: the expiry scheduler -/

lemma clean_iters_spec : ∀ (n c : Nat), c < 1019 →
    (clean_iters c n).1 = (List.range n).map (fun i => (c + i) % 1019) ∧
    (clean_iters c n).2 = (c + n) % 1019 := by
  intro n
  induction n with
  | zero =>
    intro c hc
    simp [clean_iters, Nat.mod_eq_of_lt hc]
  | succ n ih =>
    intro c hc
    have hc2 : (if HISTORY_BACKEND_MEM_HASH_TABLE_SIZE ≤ c + 1 then 0 else c + 1)
        = (c + 1) % 1019 := by
      show (if 1019 ≤ c + 1 then 0 else c + 1) = (c + 1) % 1019
      split <;> omega
    have hlt : (c + 1) % 1019 < 1019 := Nat.mod_lt _ (by omega)
    obtain ⟨ih1, ih2⟩ := ih ((c + 1) % 1019) hlt
    constructor
    · show c :: (clean_iters _ n).1 = _
      rw [hc2, ih1, List.range_succ_eq_map, List.map_cons, List.map_map]
      refine List.cons_eq_cons.mpr ⟨by omega, ?_⟩
      apply List.map_congr_left
      intro i _
      simp only [Function.comp_apply]
      omega
    · show (clean_iters _ n).2 = _
      rw [hc2, ih2]
      omega

lemma history_mem_clean_tick_fst (c : Nat) (hc : c < 1019) :
    (history_mem_clean_tick c).1 = (List.range 17).map (fun i => (c + i) % 1019) := by
  have h1 := (clean_iters_spec (HISTORY_CLEAN_PER_LOOP + 1) c hc).1
  have hcl : HISTORY_CLEAN_PER_LOOP + 1 = 17 := by decide
  rw [history_mem_clean_tick, h1, hcl]

lemma history_mem_clean_tick_snd (c : Nat) (hc : c < 1019) :
    (history_mem_clean_tick c).2 = (c + 17) % 1019 := by
  have h2 := (clean_iters_spec (HISTORY_CLEAN_PER_LOOP + 1) c hc).2
  have hcl : HISTORY_CLEAN_PER_LOOP + 1 = 17 := by decide
  rw [history_mem_clean_tick, h2, hcl]

lemma clean_ticks_spec : ∀ (k c : Nat), c < 1019 →
    clean_ticks c k = (List.range (17 * k)).map (fun i => (c + i) % 1019) := by
  intro k
  induction k with
  | zero => intro c _; simp [clean_ticks]
  | succ k ih =>
    intro c hc
    have hlt : (c + 17) % 1019 < 1019 := Nat.mod_lt _ (by omega)
    have heq : 17 * (k + 1) = 17 + 17 * k := by omega
    rw [clean_ticks, history_mem_clean_tick_fst c hc, history_mem_clean_tick_snd c hc,
      ih _ hlt, heq, List.range_add, List.map_append, List.map_map]
    congr 1
    apply List.map_congr_left
    intro i _
    simp only [Function.comp_apply]
    omega

/-- C9 (confirmed): each release-build tick of the expiry scheduler
processes exactly `1019/60 + 1 = 17` buckets, which is `ceil(1019/60)`
(the `do/while` with a post-incremented counter runs the body
`HISTORY_CLEAN_PER_LOOP + 1` times), advances the single persistent cursor
by 17 modulo 1019, and every bucket index below 1019 is visited within any
`HISTORY_SPREAD = 60` consecutive ticks. -/
theorem history_mem_clean_coverage_c9 (c : Nat) (hc : c < 1019) :
    (history_mem_clean_tick c).1.length = 17 ∧
    17 = (HISTORY_BACKEND_MEM_HASH_TABLE_SIZE + HISTORY_SPREAD - 1) /
      HISTORY_SPREAD ∧
    (history_mem_clean_tick c).2 = (c + 17) % 1019 ∧
    ∀ b, b < 1019 → b ∈ clean_ticks c HISTORY_SPREAD := by
  refine ⟨?_, by decide, history_mem_clean_tick_snd c hc, ?_⟩
  · rw [history_mem_clean_tick_fst c hc, List.length_map, List.length_range]
  · intro b hb
    rw [show HISTORY_SPREAD = 60 from rfl, clean_ticks_spec 60 c hc]
    rcases le_or_lt c b with hcb | hcb
    · exact List.mem_map.2 ⟨b - c, List.mem_range.2 (by omega), by omega⟩
    · exact List.mem_map.2 ⟨1019 + b - c, List.mem_range.2 (by omega), by omega⟩

theorem history_mem_clean_coverage_c9_witness :
    (0 : Nat) < 1019 ∧
    ((history_mem_clean_tick 0).1.length = 17 ∧
     17 = (HISTORY_BACKEND_MEM_HASH_TABLE_SIZE + HISTORY_SPREAD - 1) /
       HISTORY_SPREAD ∧
     (history_mem_clean_tick 0).2 = (0 + 17) % 1019 ∧
     ∀ b, b < 1019 → b ∈ clean_ticks 0 HISTORY_SPREAD) :=
  ⟨by decide, history_mem_clean_coverage_c9 0 (by decide)⟩

/-! ## C8: add on a log whose limits were never set -/

lemma hbm_add_step_max_lines (pt : Option String → Int) (ns : String)
    (h : HistoryLogObject) (mtags : List MessageTag) (line : String) :
    (hbm_add_step pt ns h mtags line).max_lines = h.max_lines := by
  unfold hbm_add_step hbm_history_add_line hbm_del_head
  split <;> rfl

lemma hbm_add_step_max_time (pt : Option String → Int) (ns : String)
    (h : HistoryLogObject) (mtags : List MessageTag) (line : String) :
    (hbm_add_step pt ns h mtags line).max_time = h.max_time := by
  unfold hbm_add_step hbm_history_add_line hbm_del_head
  split <;> rfl

lemma hbm_add_step_name (pt : Option String → Int) (ns : String)
    (h : HistoryLogObject) (mtags : List MessageTag) (line : String) :
    (hbm_add_step pt ns h mtags line).name = h.name := by
  unfold hbm_add_step hbm_history_add_line hbm_del_head
  split <;> rfl

lemma hbm_add_step_entries_ne_nil (pt : Option String → Int) (ns : String)
    (h : HistoryLogObject) (mtags : List MessageTag) (line : String) :
    (hbm_add_step pt ns h mtags line).entries ≠ [] := by
  unfold hbm_add_step hbm_history_add_line hbm_del_head
  split <;> simp

/-- C8 (confirmed): an `add` on a log whose `max_lines` is still 0 warns the
operators and then aborts under DEBUGMODE, while a release build falls back
to `max_lines = 50`, `max_time = 86400` and performs the append, reporting
the warning; the resulting log is nonempty. -/
theorem hbm_history_add_nolimit_c8 (pt : Option String → Int) (ns : String)
    (h : HistoryLogObject) (mtags : List MessageTag) (line : String)
    (hml : h.max_lines = 0) :
    hbm_history_add_core true pt ns h mtags line = none ∧
    ∃ h2, hbm_history_add_core false pt ns h mtags line = some (h2, true) ∧
      h2.max_lines = 50 ∧ h2.max_time = 86400 ∧ h2.entries ≠ [] := by
  refine ⟨by simp [hbm_history_add_core, hml],
    ⟨hbm_add_step pt ns { h with max_lines := 50, max_time := 86400 } mtags line,
      ?_, ?_, ?_, ?_⟩⟩
  · simp [hbm_history_add_core, hml]
  · rw [hbm_add_step_max_lines]
  · rw [hbm_add_step_max_time]
  · exact hbm_add_step_entries_ne_nil _ _ _ _ _

theorem hbm_history_add_nolimit_c8_witness :
    hbm_history_add_core true (fun _ => 5) "ts" (hbm_new_object "#chan") []
        "hello" = none ∧
    ∃ h2, hbm_history_add_core false (fun _ => 5) "ts" (hbm_new_object "#chan")
        [] "hello" = some (h2, true) ∧
      h2.max_lines = 50 ∧ h2.max_time = 86400 ∧ h2.entries ≠ [] :=
  hbm_history_add_nolimit_c8 (fun _ => 5) "ts" (hbm_new_object "#chan") []
    "hello" rfl

/-! ## C5: the master file version is never validated -/

/-- C5 counterexample: a master stream carrying version 6000 (outside the
claimed 4999..5000 window) is read successfully by `hbm_read_masterdb`
(the C function returns 1 and boot proceeds), contradicting the claim that
configuration validation fails. -/
theorem hbm_read_masterdb_version_counterexample :
    hbm_read_masterdb_items
        [DBItem.i32 6000, DBItem.str (some "p"), DBItem.str (some "q")]
      = some (6000, some "p", some "q") ∧ 5000 < 6000 := by
  exact ⟨rfl, by decide⟩

/-- C5 (corrected): `hbm_read_masterdb` reads the version field of the
master file but never inspects it, so any version value is accepted and
boot proceeds; the 4999..5000 window is enforced only on per-object files,
which `hbm_read_db` rejects when the version is out of range. -/
theorem hbm_masterdb_version_unchecked_c5 (v : Nat) (pre post : Option String)
    (rest : List DBItem) (hv : v < 4999 ∨ 5000 < v) :
    hbm_read_masterdb_items
        (DBItem.i32 v :: DBItem.str pre :: DBItem.str post :: rest)
      = some (v, pre, post) ∧
    ∀ (debug : Bool) (pt : Option String → Int) (ns mp mq : String)
      (lookup : String → Option HistoryLogObject) (r : List DBItem),
      hbm_read_db_items debug pt ns mp mq lookup
          (DBItem.i32 HISTORYDB_MAGIC_FILE_START :: DBItem.i32 v :: r)
        = HbmReadResult.failed := by
  refine ⟨rfl, ?_⟩
  intro debug pt ns mp mq lookup r
  show (if HISTORYDB_MAGIC_FILE_START ≠ HISTORYDB_MAGIC_FILE_START then
      HbmReadResult.failed
    else if v < 4999 then HbmReadResult.failed
    else if 5000 < v then HbmReadResult.failed
    else _) = HbmReadResult.failed
  rcases hv with hv | hv
  · simp [hv]
  · have h1 : ¬ v < 4999 := by omega
    simp [h1, hv]

theorem hbm_masterdb_version_unchecked_c5_witness :
    ((6001 : Nat) < 4999 ∨ 5000 < 6001) ∧
    (hbm_read_masterdb_items
        (DBItem.i32 6001 :: DBItem.str (some "a") :: DBItem.str (some "b") :: [])
      = some (6001, some "a", some "b") ∧
    ∀ (debug : Bool) (pt : Option String → Int) (ns mp mq : String)
      (lookup : String → Option HistoryLogObject) (r : List DBItem),
      hbm_read_db_items debug pt ns mp mq lookup
          (DBItem.i32 HISTORYDB_MAGIC_FILE_START :: DBItem.i32 6001 :: r)
        = HbmReadResult.failed) :=
  ⟨by decide, hbm_masterdb_version_unchecked_c5 6001 (some "a") (some "b") []
    (by decide)⟩

/-! ## C6: hash-mismatched files are quarantined, not left in place -/

/-- C6 counterexample: a per-object file with valid FILE_START magic and
version but prehash/posthash values that do not match the master is read as
a failure, and the directory scan therefore moves it into the `bad/`
quarantine subdirectory, contradicting the claim that it stays at its
original path. -/
theorem hbm_hash_mismatch_counterexample :
    hbm_read_db_items false (fun _ => 0) "ts" "p" "q" (fun _ => none)
        [DBItem.i32 HISTORYDB_MAGIC_FILE_START, DBItem.i32 5000,
         DBItem.str (some "stale-p"), DBItem.str (some "stale-q")]
      = HbmReadResult.failed ∧
    hbm_scan_file_action false (fun _ => 0) "ts" "p" "q" (fun _ => none)
        [DBItem.i32 HISTORYDB_MAGIC_FILE_START, DBItem.i32 5000,
         DBItem.str (some "stale-p"), DBItem.str (some "stale-q")]
      = ScanAction.quarantine ∧
    ScanAction.quarantine ≠ ScanAction.keep := by
  refine ⟨rfl, rfl, by decide⟩

/-- C6 (corrected): a per-object file whose prehash or posthash does not
match the master values makes `hbm_read_db` warn and stop loading without
unlinking the file itself, but it reports failure (`return 0`), and
`hbm_read_dbs` then moves the file into the `bad/` quarantine subdirectory;
the file does not remain at its original path. -/
theorem hbm_hash_mismatch_quarantined_c6 (debug : Bool)
    (pt : Option String → Int) (ns mp mq : String)
    (lookup : String → Option HistoryLogObject) (v : Nat)
    (p q : Option String) (rest : List DBItem)
    (hv1 : 4999 ≤ v) (hv2 : v ≤ 5000)
    (hmm : p ≠ some mp ∨ q ≠ some mq) :
    hbm_read_db_items debug pt ns mp mq lookup
        (DBItem.i32 HISTORYDB_MAGIC_FILE_START :: DBItem.i32 v ::
         DBItem.str p :: DBItem.str q :: rest) = HbmReadResult.failed ∧
    hbm_scan_file_action debug pt ns mp mq lookup
        (DBItem.i32 HISTORYDB_MAGIC_FILE_START :: DBItem.i32 v ::
         DBItem.str p :: DBItem.str q :: rest) = ScanAction.quarantine := by
  have hread : hbm_read_db_items debug pt ns mp mq lookup
      (DBItem.i32 HISTORYDB_MAGIC_FILE_START :: DBItem.i32 v ::
       DBItem.str p :: DBItem.str q :: rest) = HbmReadResult.failed := by
    show (if HISTORYDB_MAGIC_FILE_START ≠ HISTORYDB_MAGIC_FILE_START then
        HbmReadResult.failed
      else if v < 4999 then HbmReadResult.failed
      else if 5000 < v then HbmReadResult.failed
      else if p ≠ some mp ∨ q ≠ some mq then HbmReadResult.failed
      else _) = HbmReadResult.failed
    have h0 : ¬ HISTORYDB_MAGIC_FILE_START ≠ HISTORYDB_MAGIC_FILE_START := by
      simp
    have h1 : ¬ v < 4999 := by omega
    have h2 : ¬ 5000 < v := by omega
    rw [if_neg h0, if_neg h1, if_neg h2, if_pos hmm]
  exact ⟨hread, by rw [hbm_scan_file_action, hread]⟩

theorem hbm_hash_mismatch_quarantined_c6_witness :
    ((4999 : Nat) ≤ 5000 ∧ (5000 : Nat) ≤ 5000 ∧
      (some "x" ≠ some "p" ∨ some "y" ≠ some "q")) ∧
    (hbm_read_db_items true (fun _ => 1) "ts" "p" "q" (fun _ => none)
        (DBItem.i32 HISTORYDB_MAGIC_FILE_START :: DBItem.i32 5000 ::
         DBItem.str (some "x") :: DBItem.str (some "y") :: [])
      = HbmReadResult.failed ∧
    hbm_scan_file_action true (fun _ => 1) "ts" "p" "q" (fun _ => none)
        (DBItem.i32 HISTORYDB_MAGIC_FILE_START :: DBItem.i32 5000 ::
         DBItem.str (some "x") :: DBItem.str (some "y") :: [])
      = ScanAction.quarantine) :=
  ⟨⟨by decide, by decide, by decide⟩,
    hbm_hash_mismatch_quarantined_c6 true (fun _ => 1) "ts" "p" "q"
      (fun _ => none) 5000 (some "x") (some "y") [] (by decide) (by decide)
      (by decide)⟩

/-! ## Supporting lemmas: the replay walk -/

lemma duplicate_log_line_wf (pt : Option String → Int) (ns : String)
    (l : HistoryLogLine) (hl : EntryWF pt l) :
    duplicate_log_line pt ns l = l := by
  obtain ⟨m, hm, ht⟩ := hl
  unfold duplicate_log_line hbm_duplicate_mtags
  rw [hm]
  show HistoryLogLine.mk (pt m.value) l.mtags l.line = l
  rw [ht]

lemma request_walk_eq_drop (pt : Option String → Int) (ns : String)
    (redline : Int) :
    ∀ (es : List HistoryLogLine) (cnt skip : Int),
    request_walk pt ns redline es cnt skip =
      ((es.filter (fun l => decide (redline ≤ l.t))).drop (skip - cnt).toNat).map
        (duplicate_log_line pt ns) := by
  intro es
  induction es with
  | nil => intro cnt skip; simp [request_walk]
  | cons l ls ih =>
    intro cnt skip
    by_cases hp : redline ≤ l.t
    · rw [List.filter_cons_of_pos (by simpa using hp)]
      by_cases hsk : skip < cnt + 1
      · have h0 : (skip - cnt).toNat = 0 := by omega
        have h1 : (skip - (cnt + 1)).toNat = 0 := by omega
        rw [request_walk, if_pos hp, if_pos hsk, ih (cnt + 1) skip, h0, h1]
        simp
      · have h1 : (skip - cnt).toNat = (skip - (cnt + 1)).toNat + 1 := by omega
        rw [request_walk, if_pos hp, if_neg hsk, ih (cnt + 1) skip, h1,
          List.drop_succ_cons]
    · rw [List.filter_cons_of_neg (by simpa using hp), request_walk, if_neg hp,
        ih cnt skip]

lemma hbm_history_request_log_log (pt : Option String → Int) (ns : String)
    (now : Int) (h : HistoryLogObject) (object : String)
    (filter : Option HistoryFilter) :
    (hbm_history_request_log pt ns now h object filter).log =
      request_walk pt ns (hbm_request_redline now h filter) h.entries 0
        (hbm_request_skip
          ((h.entries.filter
            (fun l => decide (hbm_request_redline now h filter ≤ l.t))).length : Int)
          filter) := rfl

/-! ## C4: a present filter with last_lines == 0 returns nothing -/

/-- C4 counterexample: a log holding one entry inside the age window,
requested with a filter whose `last_lines` is 0 (the "missing" value),
returns an empty result: `lines_to_skip` becomes `lines_sendable`, so the
claimed "no count limit" reading is false. -/
theorem hbm_request_zero_lastlines_counterexample :
    (hbm_history_request_log (fun _ => 100) "ts" 100
        ⟨"a", [⟨100, [⟨some "time", some "T"⟩], "x"⟩], 1, 100, 10, 1000, false⟩
        "a" (some ⟨0, 0⟩)).log = [] ∧
    (HistoryLogObject.entries
        ⟨"a", [⟨100, [⟨some "time", some "T"⟩], "x"⟩], 1, 100, 10, 1000, false⟩).filter
        (fun l => decide ((100 : Int) - 1000 ≤ l.t)) ≠ [] := by
  exact ⟨rfl, by decide⟩

/-- C4 (corrected): only a request whose filter pointer is NULL applies no
count limit (every entry in the age window is returned); a present filter
with `last_lines = 0` makes `lines_to_skip = lines_sendable`, so the count
limit is zero and no entries are returned. -/
theorem hbm_request_missing_lastlines_c4 (pt : Option String → Int)
    (ns : String) (now : Int) (h : HistoryLogObject) (name : String)
    (hwf : ∀ l ∈ h.entries, EntryWF pt l) :
    (hbm_history_request_log pt ns now h name none).log =
      h.entries.filter (fun l => decide (now - h.max_time ≤ l.t)) ∧
    ∀ f : HistoryFilter, f.last_lines = 0 →
      (hbm_history_request_log pt ns now h name (some f)).log = [] := by
  constructor
  · rw [hbm_history_request_log_log, request_walk_eq_drop]
    simp only [hbm_request_redline, hbm_request_skip]
    have h0 : ((0 : Int) - 0).toNat = 0 := by decide
    rw [h0, List.drop_zero]
    have hdup : ∀ l ∈ h.entries.filter (fun l => decide (now - h.max_time ≤ l.t)),
        duplicate_log_line pt ns l = l := fun l hl =>
      duplicate_log_line_wf pt ns l (hwf l (List.mem_of_mem_filter hl))
    rw [List.map_congr_left hdup]
    simp
  · intro f hf
    rw [hbm_history_request_log_log, request_walk_eq_drop]
    generalize h.entries.filter
        (fun l => decide (hbm_request_redline now h (some f) ≤ l.t)) = F
    simp only [hbm_request_skip, hf]
    by_cases hl : (0 : Int) < (F.length : Int)
    · rw [if_pos hl]
      have hdrop : (((F.length : Int) - 0) - 0).toNat = F.length := by omega
      rw [hdrop, List.drop_length, List.map_nil]
    · rw [if_neg hl]
      have hF : F = [] := List.length_eq_zero.mp (by omega)
      subst hF
      simp

theorem hbm_request_missing_lastlines_c4_witness :
    ((hbm_history_request_log (fun _ => 50) "ts" 60
        ⟨"b", [⟨50, [⟨some "time", some "T"⟩], "y"⟩], 1, 50, 10, 1000, false⟩
        "b" none).log =
      (HistoryLogObject.entries
        ⟨"b", [⟨50, [⟨some "time", some "T"⟩], "y"⟩], 1, 50, 10, 1000, false⟩).filter
        (fun l => decide ((60 : Int) - 1000 ≤ l.t)) ∧
    ∀ f : HistoryFilter, f.last_lines = 0 →
      (hbm_history_request_log (fun _ => 50) "ts" 60
        ⟨"b", [⟨50, [⟨some "time", some "T"⟩], "y"⟩], 1, 50, 10, 1000, false⟩
        "b" (some f)).log = []) :=
  hbm_request_missing_lastlines_c4 (fun _ => 50) "ts" 60
    ⟨"b", [⟨50, [⟨some "time", some "T"⟩], "y"⟩], 1, 50, 10, 1000, false⟩ "b"
    (by intro l hl
        simp only [List.mem_singleton] at hl
        subst hl
        exact ⟨⟨some "time", some "T"⟩, rfl, rfl⟩)

/-! ## C1: the filtered replay returns the most-recent-k suffix of the
age-filtered log -/

/-- C1 (confirmed): with a filter carrying `last_seconds = s ≠ 0` and
`last_lines = k ≥ 0`, the request result is exactly the most-recent-`k`
suffix of the entries whose timestamp is at least `now - min(s, max_time)`;
in particular it has at most `k` entries, each inside the age window, and
keeps the oldest-first log order. -/
theorem hbm_request_window_suffix_c1 (pt : Option String → Int) (ns : String)
    (now : Int) (h : HistoryLogObject) (name : String) (s k : Int)
    (hwf : ∀ l ∈ h.entries, EntryWF pt l) (hs : s ≠ 0) (hk : 0 ≤ k) :
    ∃ F, F = h.entries.filter (fun l => decide (now - min s h.max_time ≤ l.t)) ∧
      (hbm_history_request_log pt ns now h name (some ⟨s, k⟩)).log =
        F.drop (F.length - k.toNat) ∧
      (hbm_history_request_log pt ns now h name (some ⟨s, k⟩)).log.length
        ≤ k.toNat ∧
      ∀ l ∈ (hbm_history_request_log pt ns now h name (some ⟨s, k⟩)).log,
        now - min s h.max_time ≤ l.t := by
  have hred : hbm_request_redline now h (some ⟨s, k⟩) = now - min s h.max_time := by
    simp only [hbm_request_redline]
    by_cases hlt : s < h.max_time
    · rw [if_pos ⟨hs, hlt⟩, min_eq_left (le_of_lt hlt)]
    · rw [if_neg (by tauto), min_eq_right (by omega)]
  set F := h.entries.filter (fun l => decide (now - min s h.max_time ≤ l.t))
    with hF
  have hdup : ∀ (m : Nat),
      (F.drop m).map (duplicate_log_line pt ns) = F.drop m := by
    intro m
    have hall : ∀ l ∈ F.drop m, duplicate_log_line pt ns l = l := by
      intro l hl
      have hlF : l ∈ F := List.drop_subset _ _ hl
      exact duplicate_log_line_wf pt ns l (hwf l (List.mem_of_mem_filter hlF))
    rw [List.map_congr_left hall]
    simp
  have hlog : (hbm_history_request_log pt ns now h name (some ⟨s, k⟩)).log =
      F.drop (F.length - k.toNat) := by
    rw [hbm_history_request_log_log, request_walk_eq_drop, hred, ← hF]
    simp only [hbm_request_skip]
    by_cases hkF : k < (F.length : Int)
    · rw [if_pos hkF]
      have heq : (((F.length : Int) - k) - 0).toNat = F.length - k.toNat := by
        omega
      rw [heq, hdup]
    · rw [if_neg hkF]
      have h1 : ((0 : Int) - 0).toNat = 0 := by decide
      have h2 : F.length - k.toNat = 0 := by omega
      rw [h1, h2, hdup]
  refine ⟨F, rfl, hlog, ?_, ?_⟩
  · rw [hlog, List.length_drop]
    omega
  · intro l hl
    rw [hlog] at hl
    have hlF : l ∈ F := List.drop_subset _ _ hl
    have := (List.mem_filter.mp hlF).2
    exact of_decide_eq_true this

theorem hbm_request_window_suffix_c1_witness :
    ∃ F, F = (HistoryLogObject.entries
        ⟨"c", [⟨50, [⟨some "time", some "T1"⟩], "a"⟩,
               ⟨60, [⟨some "time", some "T2"⟩], "b"⟩], 2, 50, 10, 1000, true⟩).filter
        (fun l => decide ((70 : Int) - min 1000 1000 ≤ l.t)) ∧
      (hbm_history_request_log (fun v => if v = some "T1" then 50 else 60) "ts" 70
        ⟨"c", [⟨50, [⟨some "time", some "T1"⟩], "a"⟩,
               ⟨60, [⟨some "time", some "T2"⟩], "b"⟩], 2, 50, 10, 1000, true⟩
        "c" (some ⟨1000, 1⟩)).log = F.drop (F.length - (1 : Int).toNat) ∧
      (hbm_history_request_log (fun v => if v = some "T1" then 50 else 60) "ts" 70
        ⟨"c", [⟨50, [⟨some "time", some "T1"⟩], "a"⟩,
               ⟨60, [⟨some "time", some "T2"⟩], "b"⟩], 2, 50, 10, 1000, true⟩
        "c" (some ⟨1000, 1⟩)).log.length ≤ (1 : Int).toNat ∧
      ∀ l ∈ (hbm_history_request_log (fun v => if v = some "T1" then 50 else 60) "ts" 70
        ⟨"c", [⟨50, [⟨some "time", some "T1"⟩], "a"⟩,
               ⟨60, [⟨some "time", some "T2"⟩], "b"⟩], 2, 50, 10, 1000, true⟩
        "c" (some ⟨1000, 1⟩)).log,
        (70 : Int) - min 1000 1000 ≤ l.t :=
  hbm_request_window_suffix_c1 (fun v => if v = some "T1" then 50 else 60) "ts"
    70
    ⟨"c", [⟨50, [⟨some "time", some "T1"⟩], "a"⟩,
           ⟨60, [⟨some "time", some "T2"⟩], "b"⟩], 2, 50, 10, 1000, true⟩
    "c" 1000 1
    (by intro l hl
        simp only [List.mem_cons, List.mem_singleton] at hl
        rcases hl with hl | hl | hl
        · subst hl; exact ⟨⟨some "time", some "T1"⟩, rfl, rfl⟩
        · subst hl; exact ⟨⟨some "time", some "T2"⟩, rfl, rfl⟩
        · cases hl)
    (by decide) (by decide)
/-! ## C10: request is NULL exactly when no log exists -/

/-- C10 (confirmed): under the table well-formedness invariants (each log
lives in the bucket of its name's hash; the keyed hash is case-insensitive),
`hbm_history_request` returns NULL if and only if no log with a
case-insensitively equal name exists anywhere in the table; when a log is
found the result is non-null, its `object` field is a copy of the requested
name, and whenever zero entries pass the age filter (redline) the result's
entry list is empty while the result itself is still non-null. -/
theorem hbm_request_none_iff_c10 (pt : Option String → Int) (ns : String)
    (now : Int) (hash : String → Nat)
    (table : Nat → List HistoryLogObject) (object : String)
    (filter : Option HistoryFilter)
    (hhash : ∀ a b : String, a.toLower = b.toLower → hash a = hash b)
    (hwf : ∀ i, ∀ h2 ∈ table i, hash h2.name % 1019 = i) :
    (hbm_history_request_store pt ns now hash table object filter = none ↔
      ∀ i, ∀ h2 ∈ table i, object.toLower ≠ h2.name.toLower) ∧
    ∀ h2, hbm_find_object hash table object = some h2 →
      hbm_history_request_store pt ns now hash table object filter =
        some (hbm_history_request_log pt ns now h2 object filter) ∧
      (hbm_history_request_log pt ns now h2 object filter).object = object ∧
      (h2.entries.filter
          (fun l => decide (hbm_request_redline now h2 filter ≤ l.t)) = [] →
        (hbm_history_request_log pt ns now h2 object filter).log = []) := by
  constructor
  · constructor
    · intro hnone i h2 hmem heq
      have hfind : hbm_find_object hash table object = none := by
        rcases hfo : hbm_find_object hash table object with _ | h3
        · rfl
        · rw [hbm_history_request_store, hfo] at hnone
          cases hnone
      have hbucket : hash h2.name % 1019 = i := hwf i h2 hmem
      have hsame : hash object = hash h2.name := hhash object h2.name heq
      have hmem2 : h2 ∈ table (hash object % 1019) := by
        rw [hsame, hbucket]
        exact hmem
      have hnot := List.find?_eq_none.mp hfind h2 hmem2
      simp only [beq_iff_eq] at hnot
      exact hnot heq
    · intro hno
      have hfind : hbm_find_object hash table object = none := by
        apply List.find?_eq_none.mpr
        intro h2 hmem
        simp only [beq_iff_eq]
        exact hno (hash object % 1019) h2 hmem
      rw [hbm_history_request_store, hfind]
  · intro h2 hfo
    refine ⟨by rw [hbm_history_request_store, hfo], rfl, ?_⟩
    intro hfilt
    rw [hbm_history_request_log_log, request_walk_eq_drop, hfilt]
    simp

theorem hbm_request_none_iff_c10_witness :
    ((hbm_history_request_store (fun _ => 7) "ts" 9 (fun _ => 3)
        (fun i => if i = 3 then
          [⟨"#Foo", [⟨-100, [⟨some "time", some "T"⟩], "old"⟩],
            1, -100, 5, 100, false⟩] else []) "#FOO" none = none ↔
      ∀ i, ∀ h2 ∈ (fun i => if i = 3 then
          [(⟨"#Foo", [⟨-100, [⟨some "time", some "T"⟩], "old"⟩],
            1, -100, 5, 100, false⟩ : HistoryLogObject)] else []) i,
        ("#FOO" : String).toLower ≠ h2.name.toLower) ∧
    ∀ h2, hbm_find_object (fun _ => 3)
        (fun i => if i = 3 then
          [⟨"#Foo", [⟨-100, [⟨some "time", some "T"⟩], "old"⟩],
            1, -100, 5, 100, false⟩] else []) "#FOO" = some h2 →
      hbm_history_request_store (fun _ => 7) "ts" 9 (fun _ => 3)
        (fun i => if i = 3 then
          [⟨"#Foo", [⟨-100, [⟨some "time", some "T"⟩], "old"⟩],
            1, -100, 5, 100, false⟩] else []) "#FOO" none =
        some (hbm_history_request_log (fun _ => 7) "ts" 9 h2 "#FOO" none) ∧
      (hbm_history_request_log (fun _ => 7) "ts" 9 h2 "#FOO" none).object
        = "#FOO" ∧
      (h2.entries.filter
          (fun l => decide (hbm_request_redline 9 h2 none ≤ l.t)) = [] →
        (hbm_history_request_log (fun _ => 7) "ts" 9 h2 "#FOO" none).log
          = [])) :=
  hbm_request_none_iff_c10 (fun _ => 7) "ts" 9 (fun _ => 3)
    (fun i => if i = 3 then
      [⟨"#Foo", [⟨-100, [⟨some "time", some "T"⟩], "old"⟩],
        1, -100, 5, 100, false⟩] else [])
    "#FOO" none
    (fun _ _ _ => rfl)
    (by intro i h2 hmem
        by_cases hi : i = 3
        · subst hi
          rfl
        · have hmem2 : h2 ∈ (if i = 3 then
              [(⟨"#Foo", [⟨-100, [⟨some "time", some "T"⟩], "old"⟩],
                1, -100, 5, 100, false⟩ : HistoryLogObject)]
              else []) := hmem
          rw [if_neg hi] at hmem2
          cases hmem2)

/-! ## Supporting lemmas: oldest-time bookkeeping -/

lemma foldOld_cons (o : Int) (l : HistoryLogLine) (ls : List HistoryLogLine) :
    foldOld o (l :: ls) = foldOld (hbm_upd_oldest o l.t) ls := rfl

lemma hbm_upd_oldest_zero (t : Int) : hbm_upd_oldest 0 t = t := by
  unfold hbm_upd_oldest
  simp

lemma hbm_upd_oldest_pos (o t : Int) (ho : 1 ≤ o) (ht : 1 ≤ t) :
    hbm_upd_oldest o t = min o t := by
  unfold hbm_upd_oldest
  by_cases hlt : t < o
  · rw [if_pos (Or.inl hlt), min_eq_right (le_of_lt hlt)]
  · rw [if_neg (by omega), min_eq_left (by omega)]

lemma foldMin_le_init : ∀ (es : List HistoryLogLine) (a : Int),
    es.foldl (fun x l => min x l.t) a ≤ a := by
  intro es
  induction es with
  | nil => intro a; simp
  | cons l ls ih =>
    intro a
    exact le_trans (ih (min a l.t)) (min_le_left _ _)

lemma foldMin_mono : ∀ (es : List HistoryLogLine) (a b : Int), a ≤ b →
    es.foldl (fun x l => min x l.t) a ≤ es.foldl (fun x l => min x l.t) b := by
  intro es
  induction es with
  | nil => intro a b hab; simpa
  | cons l ls ih =>
    intro a b hab
    exact ih _ _ (min_le_min hab (le_refl _))

lemma le_foldMin : ∀ (es : List HistoryLogLine) (a c : Int), c ≤ a →
    (∀ l ∈ es, c ≤ l.t) → c ≤ es.foldl (fun x l => min x l.t) a := by
  intro es
  induction es with
  | nil => intro a c hca _; simpa
  | cons l ls ih =>
    intro a c hca hall
    exact ih _ _ (le_min hca (hall l (by simp)))
      (fun x hx => hall x (by simp [hx]))

lemma foldMin_le_mem : ∀ (es : List HistoryLogLine) (a : Int), ∀ l ∈ es,
    es.foldl (fun x y => min x y.t) a ≤ l.t := by
  intro es
  induction es with
  | nil => intro a l hl; cases hl
  | cons x xs ih =>
    intro a l hl
    rcases List.mem_cons.mp hl with hh | hh
    · subst hh
      exact le_trans (foldMin_le_init xs _) (min_le_right _ _)
    · exact ih _ l hh

lemma foldOld_pos : ∀ (es : List HistoryLogLine) (o : Int), 1 ≤ o →
    (∀ l ∈ es, 1 ≤ l.t) →
    foldOld o es = es.foldl (fun x l => min x l.t) o := by
  intro es
  induction es with
  | nil => intro o _ _; rfl
  | cons l ls ih =>
    intro o ho hall
    have hl : (1 : Int) ≤ l.t := hall l (by simp)
    rw [foldOld_cons, hbm_upd_oldest_pos o l.t ho hl, List.foldl_cons]
    exact ih _ (le_min ho hl) (fun x hx => hall x (by simp [hx]))

lemma min_t_eq_foldOld (es : List HistoryLogLine) (hne : es ≠ [])
    (hall : ∀ l ∈ es, 1 ≤ l.t) : foldOld 0 es = min_t es := by
  match es with
  | l :: ls =>
    rw [foldOld_cons, hbm_upd_oldest_zero]
    rw [foldOld_pos ls l.t (hall l (by simp)) (fun x hx => hall x (by simp [hx]))]
    rfl

lemma min_t_pos (es : List HistoryLogLine) (hne : es ≠ [])
    (hall : ∀ l ∈ es, 1 ≤ l.t) : 1 ≤ min_t es := by
  match es with
  | l :: ls =>
    show (1 : Int) ≤ ls.foldl (fun a x => min a x.t) l.t
    exact le_foldMin ls l.t 1 (hall l (by simp))
      (fun x hx => hall x (by simp [hx]))

lemma min_t_le_mem (es : List HistoryLogLine) : ∀ l ∈ es, min_t es ≤ l.t := by
  match es with
  | [] => intro l hl; cases hl
  | x :: xs =>
    intro l hl
    rcases List.mem_cons.mp hl with hh | hh
    · subst hh
      exact foldMin_le_init xs _
    · exact foldMin_le_mem xs _ l hh

lemma min_t_append_last (es : List HistoryLogLine) (l : HistoryLogLine) :
    min_t (es ++ [l]) = if es = [] then l.t else min (min_t es) l.t := by
  match es with
  | [] => simp [min_t]
  | x :: xs =>
    rw [if_neg (by simp)]
    show (xs ++ [l]).foldl (fun a y => min a y.t) x.t = _
    rw [List.foldl_append]
    rfl

lemma min_t_cons_le_tail (x : HistoryLogLine) (xs : List HistoryLogLine)
    (hne : xs ≠ []) : min_t (x :: xs) ≤ min_t xs := by
  match xs with
  | y :: ys =>
    show ((y :: ys).foldl (fun a z => min a z.t) x.t) ≤
      ys.foldl (fun a z => min a z.t) y.t
    rw [List.foldl_cons]
    exact foldMin_mono ys _ _ (min_le_right _ _)

/-! ## Supporting lemmas: the cleanup walks -/

lemma cleanup_time_walk_spec (redline : Int) :
    ∀ (es : List HistoryLogLine) (n o : Int) (d : Bool),
    (cleanup_time_walk redline es n o d).1 =
        es.filter (fun l => decide (redline ≤ l.t)) ∧
    (cleanup_time_walk redline es n o d).2.1 =
        n - es.length + (es.filter (fun l => decide (redline ≤ l.t))).length ∧
    (cleanup_time_walk redline es n o d).2.2.1 =
        foldOld o (es.filter (fun l => decide (redline ≤ l.t))) := by
  intro es
  induction es with
  | nil => intro n o d; simp [cleanup_time_walk, foldOld]
  | cons l ls ih =>
    intro n o d
    by_cases hc : l.t < redline
    · obtain ⟨ih1, ih2, ih3⟩ := ih (n - 1) o true
      rw [List.filter_cons_of_neg (by simpa using not_le.mpr hc)]
      rw [cleanup_time_walk, if_pos hc]
      refine ⟨ih1, ?_, ih3⟩
      rw [ih2, List.length_cons]
      push_cast
      ring
    · obtain ⟨ih1, ih2, ih3⟩ := ih n (hbm_upd_oldest o l.t) d
      rw [List.filter_cons_of_pos (by simpa using not_lt.mp hc)]
      rw [cleanup_time_walk, if_neg hc]
      refine ⟨?_, ?_, ?_⟩
      · show l :: (cleanup_time_walk redline ls n (hbm_upd_oldest o l.t) d).1 = _
        rw [ih1]
      · show (cleanup_time_walk redline ls n (hbm_upd_oldest o l.t) d).2.1 = _
        rw [ih2, List.length_cons, List.length_cons]
        push_cast
        ring
      · show (cleanup_time_walk redline ls n (hbm_upd_oldest o l.t) d).2.2.1 = _
        rw [ih3, foldOld_cons]

lemma cleanup_lines_walk_spec (maxl : Int) :
    ∀ (es : List HistoryLogLine) (n o : Int) (d : Bool),
    (cleanup_lines_walk maxl es n o d).1 =
        es.drop (min es.length (n - maxl).toNat) ∧
    (cleanup_lines_walk maxl es n o d).2.1 =
        n - min es.length (n - maxl).toNat ∧
    (cleanup_lines_walk maxl es n o d).2.2.1 =
        foldOld o (es.drop (min es.length (n - maxl).toNat)) := by
  intro es
  induction es with
  | nil => intro n o d; simp [cleanup_lines_walk, foldOld]
  | cons l ls ih =>
    intro n o d
    by_cases hc : maxl < n
    · obtain ⟨ih1, ih2, ih3⟩ := ih (n - 1) o true
      have hmin : min (l :: ls).length (n - maxl).toNat =
          min ls.length (n - 1 - maxl).toNat + 1 := by
        rw [List.length_cons]
        omega
      rw [cleanup_lines_walk, if_pos hc]
      refine ⟨?_, ?_, ?_⟩
      · rw [ih1, hmin, List.drop_succ_cons]
      · rw [ih2, hmin]
        push_cast
        omega
      · rw [ih3, hmin, List.drop_succ_cons]
    · obtain ⟨ih1, ih2, ih3⟩ := ih n (hbm_upd_oldest o l.t) d
      have h0 : (n - maxl).toNat = 0 := by omega
      have hmin0 : ∀ (k : Nat), min k (0 : Nat) = 0 := fun k => Nat.min_zero k
      rw [cleanup_lines_walk, if_neg hc]
      refine ⟨?_, ?_, ?_⟩
      · show l :: (cleanup_lines_walk maxl ls n (hbm_upd_oldest o l.t) d).1 = _
        rw [ih1, h0, hmin0, hmin0, List.drop_zero, List.drop_zero]
      · show (cleanup_lines_walk maxl ls n (hbm_upd_oldest o l.t) d).2.1 = _
        rw [ih2, h0, hmin0, hmin0]
      · show (cleanup_lines_walk maxl ls n (hbm_upd_oldest o l.t) d).2.2.1 = _
        rw [ih3, h0, hmin0, hmin0, List.drop_zero, List.drop_zero, foldOld_cons]

/-! ## The per-log invariants of C2 and C7 -/

/-- The counting invariant of C2: `num_lines` agrees with the linked list
and respects `max_lines` (which the host has set to at least 1). -/
def CountInv (h : HistoryLogObject) : Prop :=
  h.num_lines = (h.entries.length : Int) ∧ h.num_lines ≤ h.max_lines ∧
    1 ≤ h.max_lines

/-- The oldest-time invariant that the code actually maintains: all stored
timestamps are positive, and `oldest_t` is 0 exactly on the empty log and
otherwise a positive lower bound of the entry timestamps. -/
def OldInv (h : HistoryLogObject) : Prop :=
  (∀ l ∈ h.entries, 1 ≤ l.t) ∧
  ((h.entries = [] ∧ h.oldest_t = 0) ∨
   (h.entries ≠ [] ∧ 1 ≤ h.oldest_t ∧ h.oldest_t ≤ min_t h.entries))

lemma add_step_entries (pt : Option String → Int) (ns : String)
    (h : HistoryLogObject) (mtags : List MessageTag) (line : String) :
    (hbm_add_step pt ns h mtags line).entries =
      (if h.max_lines ≤ h.num_lines then h.entries.tail else h.entries) ++
        [⟨(hbm_duplicate_mtags pt ns mtags).2,
          (hbm_duplicate_mtags pt ns mtags).1, line⟩] := by
  unfold hbm_add_step hbm_history_add_line hbm_del_head
  split <;> rfl

lemma add_step_num_lines (pt : Option String → Int) (ns : String)
    (h : HistoryLogObject) (mtags : List MessageTag) (line : String) :
    (hbm_add_step pt ns h mtags line).num_lines =
      (if h.max_lines ≤ h.num_lines then h.num_lines - 1 else h.num_lines)
        + 1 := by
  unfold hbm_add_step hbm_history_add_line hbm_del_head
  split <;> rfl

lemma add_step_oldest_t (pt : Option String → Int) (ns : String)
    (h : HistoryLogObject) (mtags : List MessageTag) (line : String) :
    (hbm_add_step pt ns h mtags line).oldest_t =
      hbm_upd_oldest h.oldest_t (hbm_duplicate_mtags pt ns mtags).2 := by
  unfold hbm_add_step hbm_history_add_line hbm_del_head
  split <;> rfl

lemma duplicate_mtags_t_pos (pt : Option String → Int) (ns : String)
    (mtags : List MessageTag) (hpt : ∀ v, 1 ≤ pt v) :
    1 ≤ (hbm_duplicate_mtags pt ns mtags).2 := by
  unfold hbm_duplicate_mtags
  rcases hfind : find_mtag mtags "time" with _ | n
  · exact hpt _
  · exact hpt _

lemma add_step_CountInv (pt : Option String → Int) (ns : String)
    (h : HistoryLogObject) (mtags : List MessageTag) (line : String)
    (hinv : CountInv h) : CountInv (hbm_add_step pt ns h mtags line) := by
  obtain ⟨h1, h2, h3⟩ := hinv
  refine ⟨?_, ?_, ?_⟩
  · rw [add_step_num_lines, add_step_entries, List.length_append,
      List.length_singleton]
    by_cases hc : h.max_lines ≤ h.num_lines
    · have hlen : 1 ≤ h.entries.length := by omega
      rw [if_pos hc, if_pos hc, List.length_tail]
      omega
    · rw [if_neg hc, if_neg hc]
      omega
  · rw [add_step_num_lines, hbm_add_step_max_lines]
    by_cases hc : h.max_lines ≤ h.num_lines
    · rw [if_pos hc]
      omega
    · rw [if_neg hc]
      omega
  · rw [hbm_add_step_max_lines]
    exact h3

lemma add_step_OldInv (pt : Option String → Int) (ns : String)
    (h : HistoryLogObject) (mtags : List MessageTag) (line : String)
    (hpt : ∀ v, 1 ≤ pt v) (hc : CountInv h) (ho : OldInv h) :
    OldInv (hbm_add_step pt ns h mtags line) := by
  obtain ⟨hc1, hc2, hc3⟩ := hc
  obtain ⟨hts, hdisj⟩ := ho
  have ht : 1 ≤ (hbm_duplicate_mtags pt ns mtags).2 :=
    duplicate_mtags_t_pos pt ns mtags hpt
  set t := (hbm_duplicate_mtags pt ns mtags).2 with hT
  set newl : HistoryLogLine :=
    ⟨t, (hbm_duplicate_mtags pt ns mtags).1, line⟩ with hnewl
  have hnewt : newl.t = t := rfl
  set base : List HistoryLogLine :=
    if h.max_lines ≤ h.num_lines then h.entries.tail else h.entries with hbase
  have hents : (hbm_add_step pt ns h mtags line).entries = base ++ [newl] :=
    add_step_entries pt ns h mtags line
  have hold : (hbm_add_step pt ns h mtags line).oldest_t =
      hbm_upd_oldest h.oldest_t t := add_step_oldest_t pt ns h mtags line
  have hbase_sub : ∀ l ∈ base, l ∈ h.entries := by
    intro l hl
    rw [hbase] at hl
    by_cases hcc : h.max_lines ≤ h.num_lines
    · rw [if_pos hcc] at hl
      exact List.tail_subset _ hl
    · rw [if_neg hcc] at hl
      exact hl
  constructor
  · intro l hl
    rw [hents] at hl
    rcases List.mem_append.mp hl with hl | hl
    · exact hts l (hbase_sub l hl)
    · rw [List.mem_singleton] at hl
      subst hl
      exact ht
  · right
    refine ⟨by rw [hents]; simp, ?_, ?_⟩
    · rw [hold]
      rcases hdisj with ⟨_, hO0⟩ | ⟨_, hO1, _⟩
      · rw [hO0, hbm_upd_oldest_zero]
        exact ht
      · rw [hbm_upd_oldest_pos _ _ hO1 ht]
        exact le_min hO1 ht
    · rw [hold, hents, min_t_append_last]
      rcases hdisj with ⟨hE0, hO0⟩ | ⟨hE1, hO1, hOm⟩
      · have hbase0 : base = [] := by
          rw [hbase]
          by_cases hcc : h.max_lines ≤ h.num_lines
          · rw [if_pos hcc, hE0]
            rfl
          · rw [if_neg hcc]
            exact hE0
        rw [if_pos hbase0, hO0, hbm_upd_oldest_zero, hnewt]
      · rw [hbm_upd_oldest_pos _ _ hO1 ht, hnewt]
        by_cases hb0 : base = []
        · rw [if_pos hb0]
          exact min_le_right _ _
        · rw [if_neg hb0]
          have hOb : h.oldest_t ≤ min_t base := by
            rw [hbase]
            by_cases hcc : h.max_lines ≤ h.num_lines
            · rw [if_pos hcc]
              have htail : h.entries.tail ≠ [] := by
                rw [hbase, if_pos hcc] at hb0
                exact hb0
              match hE : h.entries, hE1 with
              | x :: xs, _ =>
                rw [hE] at hOm htail
                exact le_trans hOm (min_t_cons_le_tail x xs
                  (by simpa using htail))
            · rw [if_neg hcc]
              exact hOm
          exact min_le_min hOb (le_refl _)

lemma time_pass_fields (redline : Int) (h : HistoryLogObject) :
    (hbm_cleanup_time_pass redline h).max_lines = h.max_lines ∧
    (hbm_cleanup_time_pass redline h).max_time = h.max_time ∧
    (hbm_cleanup_time_pass redline h).name = h.name := by
  unfold hbm_cleanup_time_pass
  split <;> exact ⟨rfl, rfl, rfl⟩

lemma lines_pass_fields (h : HistoryLogObject) :
    (hbm_cleanup_lines_pass h).max_lines = h.max_lines ∧
    (hbm_cleanup_lines_pass h).max_time = h.max_time ∧
    (hbm_cleanup_lines_pass h).name = h.name := by
  unfold hbm_cleanup_lines_pass
  split <;> exact ⟨rfl, rfl, rfl⟩

lemma time_pass_CountInv (redline : Int) (h : HistoryLogObject)
    (hinv : CountInv h) : CountInv (hbm_cleanup_time_pass redline h) := by
  obtain ⟨h1, h2, h3⟩ := hinv
  unfold hbm_cleanup_time_pass
  by_cases hc : h.oldest_t < redline
  · rw [if_pos hc]
    obtain ⟨w1, w2, _⟩ :=
      cleanup_time_walk_spec redline h.entries h.num_lines 0 h.dirty
    have hle := List.length_filter_le
      (fun l => decide (redline ≤ l.t)) h.entries
    refine ⟨?_, ?_, h3⟩
    · show (cleanup_time_walk redline h.entries h.num_lines 0 h.dirty).2.1 =
        ((cleanup_time_walk redline h.entries h.num_lines 0 h.dirty).1.length : Int)
      rw [w1, w2]
      omega
    · show (cleanup_time_walk redline h.entries h.num_lines 0 h.dirty).2.1 ≤
        h.max_lines
      rw [w2]
      omega
  · rw [if_neg hc]
    exact ⟨h1, h2, h3⟩

lemma lines_pass_CountInv (h : HistoryLogObject) (hinv : CountInv h) :
    CountInv (hbm_cleanup_lines_pass h) := by
  obtain ⟨h1, h2, h3⟩ := hinv
  unfold hbm_cleanup_lines_pass
  by_cases hc : h.max_lines < h.num_lines
  · rw [if_pos hc]
    obtain ⟨w1, w2, _⟩ :=
      cleanup_lines_walk_spec h.max_lines h.entries h.num_lines 0 h.dirty
    refine ⟨?_, ?_, h3⟩
    · show (cleanup_lines_walk h.max_lines h.entries h.num_lines 0 h.dirty).2.1 =
        ((cleanup_lines_walk h.max_lines h.entries h.num_lines 0 h.dirty).1.length : Int)
      rw [w1, w2, List.length_drop]
      omega
    · show (cleanup_lines_walk h.max_lines h.entries h.num_lines 0 h.dirty).2.1 ≤
        h.max_lines
      rw [w2]
      omega
  · rw [if_neg hc]
    exact ⟨h1, h2, h3⟩

lemma time_pass_OldInv (redline : Int) (h : HistoryLogObject)
    (ho : OldInv h) : OldInv (hbm_cleanup_time_pass redline h) := by
  obtain ⟨hts, hdisj⟩ := ho
  unfold hbm_cleanup_time_pass
  by_cases hc : h.oldest_t < redline
  · rw [if_pos hc]
    obtain ⟨w1, _, w3⟩ :=
      cleanup_time_walk_spec redline h.entries h.num_lines 0 h.dirty
    set F := h.entries.filter (fun l => decide (redline ≤ l.t)) with hF
    have hFts : ∀ l ∈ F, 1 ≤ l.t :=
      fun l hl => hts l (List.mem_of_mem_filter hl)
    refine ⟨?_, ?_⟩
    · show ∀ l ∈ (cleanup_time_walk redline h.entries h.num_lines 0 h.dirty).1,
        1 ≤ l.t
      rw [w1]
      exact hFts
    · show ((cleanup_time_walk redline h.entries h.num_lines 0 h.dirty).1 = [] ∧
          (cleanup_time_walk redline h.entries h.num_lines 0 h.dirty).2.2.1 = 0) ∨
        ((cleanup_time_walk redline h.entries h.num_lines 0 h.dirty).1 ≠ [] ∧
          1 ≤ (cleanup_time_walk redline h.entries h.num_lines 0 h.dirty).2.2.1 ∧
          (cleanup_time_walk redline h.entries h.num_lines 0 h.dirty).2.2.1 ≤
            min_t (cleanup_time_walk redline h.entries h.num_lines 0 h.dirty).1)
      rw [w1, w3]
      by_cases hF0 : F = []
      · left
        exact ⟨hF0, by rw [hF0]; rfl⟩
      · right
        rw [min_t_eq_foldOld F hF0 hFts]
        exact ⟨hF0, min_t_pos F hF0 hFts, le_refl _⟩
  · rw [if_neg hc]
    exact ⟨hts, hdisj⟩

lemma lines_pass_OldInv (h : HistoryLogObject) (ho : OldInv h) :
    OldInv (hbm_cleanup_lines_pass h) := by
  obtain ⟨hts, hdisj⟩ := ho
  unfold hbm_cleanup_lines_pass
  by_cases hc : h.max_lines < h.num_lines
  · rw [if_pos hc]
    obtain ⟨w1, _, w3⟩ :=
      cleanup_lines_walk_spec h.max_lines h.entries h.num_lines 0 h.dirty
    set F := h.entries.drop
      (min h.entries.length (h.num_lines - h.max_lines).toNat) with hF
    have hFts : ∀ l ∈ F, 1 ≤ l.t :=
      fun l hl => hts l (List.drop_subset _ _ hl)
    refine ⟨?_, ?_⟩
    · show ∀ l ∈ (cleanup_lines_walk h.max_lines h.entries h.num_lines 0 h.dirty).1,
        1 ≤ l.t
      rw [w1]
      exact hFts
    · show ((cleanup_lines_walk h.max_lines h.entries h.num_lines 0 h.dirty).1 = [] ∧
          (cleanup_lines_walk h.max_lines h.entries h.num_lines 0 h.dirty).2.2.1 = 0) ∨
        ((cleanup_lines_walk h.max_lines h.entries h.num_lines 0 h.dirty).1 ≠ [] ∧
          1 ≤ (cleanup_lines_walk h.max_lines h.entries h.num_lines 0 h.dirty).2.2.1 ∧
          (cleanup_lines_walk h.max_lines h.entries h.num_lines 0 h.dirty).2.2.1 ≤
            min_t (cleanup_lines_walk h.max_lines h.entries h.num_lines 0 h.dirty).1)
      rw [w1, w3]
      by_cases hF0 : F = []
      · left
        exact ⟨hF0, by rw [hF0]; rfl⟩
      · right
        rw [min_t_eq_foldOld F hF0 hFts]
        exact ⟨hF0, min_t_pos F hF0 hFts, le_refl _⟩
  · rw [if_neg hc]
    exact ⟨hts, hdisj⟩

lemma cleanup_CountInv (now : Int) (h : HistoryLogObject)
    (hinv : CountInv h) : CountInv (hbm_history_cleanup now h) :=
  lines_pass_CountInv _ (time_pass_CountInv _ _ hinv)

lemma cleanup_OldInv (now : Int) (h : HistoryLogObject) (ho : OldInv h) :
    OldInv (hbm_history_cleanup now h) :=
  lines_pass_OldInv _ (time_pass_OldInv _ _ ho)

lemma add_core_CountInv (debug : Bool) (pt : Option String → Int)
    (ns : String) (h : HistoryLogObject) (mtags : List MessageTag)
    (line : String) (pair : HistoryLogObject × Bool) (hinv : CountInv h)
    (heq : hbm_history_add_core debug pt ns h mtags line = some pair) :
    CountInv pair.1 := by
  obtain ⟨_, _, h3⟩ := hinv
  unfold hbm_history_add_core at heq
  rw [if_neg (by omega : ¬ h.max_lines = 0)] at heq
  rw [Option.some.injEq] at heq
  rw [← heq]
  exact add_step_CountInv pt ns h mtags line ⟨by assumption, by assumption, h3⟩

lemma add_core_OldInv (debug : Bool) (pt : Option String → Int)
    (ns : String) (h : HistoryLogObject) (mtags : List MessageTag)
    (line : String) (pair : HistoryLogObject × Bool)
    (hpt : ∀ v, 1 ≤ pt v) (hc : CountInv h) (ho : OldInv h)
    (heq : hbm_history_add_core debug pt ns h mtags line = some pair) :
    OldInv pair.1 := by
  have h3 := hc.2.2
  unfold hbm_history_add_core at heq
  rw [if_neg (by omega : ¬ h.max_lines = 0)] at heq
  rw [Option.some.injEq] at heq
  rw [← heq]
  exact add_step_OldInv pt ns h mtags line hpt hc ho

lemma apply_ops_CountInv (debug : Bool) (pt : Option String → Int) :
    ∀ (ops : List HistOp) (h h2 : HistoryLogObject), CountInv h →
    apply_ops debug pt h ops = some h2 → CountInv h2 := by
  intro ops
  induction ops with
  | nil =>
    intro h h2 hinv heq
    rw [apply_ops, Option.some.injEq] at heq
    rw [← heq]
    exact hinv
  | cons op ops ih =>
    intro h h2 hinv heq
    rw [apply_ops] at heq
    rcases hop : apply_op debug pt h op with _ | h3
    · rw [hop] at heq
      cases heq
    · rw [hop] at heq
      refine ih h3 h2 ?_ heq
      cases op with
      | add mtags line ns =>
        simp only [apply_op] at hop
        rcases hcore : hbm_history_add_core debug pt ns h mtags line with _ | pair
        · rw [hcore] at hop
          cases hop
        · rw [hcore, Option.map_some', Option.some.injEq] at hop
          rw [← hop]
          exact add_core_CountInv debug pt ns h mtags line pair hinv hcore
      | tick now =>
        simp only [apply_op] at hop
        rw [Option.some.injEq] at hop
        rw [← hop]
        exact cleanup_CountInv now h hinv

lemma apply_ops_OldInv (debug : Bool) (pt : Option String → Int)
    (hpt : ∀ v, 1 ≤ pt v) :
    ∀ (ops : List HistOp) (h h2 : HistoryLogObject), CountInv h → OldInv h →
    apply_ops debug pt h ops = some h2 → CountInv h2 ∧ OldInv h2 := by
  intro ops
  induction ops with
  | nil =>
    intro h h2 hc ho heq
    rw [apply_ops, Option.some.injEq] at heq
    rw [← heq]
    exact ⟨hc, ho⟩
  | cons op ops ih =>
    intro h h2 hc ho heq
    rw [apply_ops] at heq
    rcases hop : apply_op debug pt h op with _ | h3
    · rw [hop] at heq
      cases heq
    · rw [hop] at heq
      refine ih h3 h2 ?_ ?_ heq
      all_goals
        cases op with
        | add mtags line ns =>
          simp only [apply_op] at hop
          rcases hcore : hbm_history_add_core debug pt ns h mtags line with _ | pair
          · rw [hcore] at hop
            cases hop
          · rw [hcore, Option.map_some', Option.some.injEq] at hop
            rw [← hop]
            first
            | exact add_core_CountInv debug pt ns h mtags line pair hc hcore
            | exact add_core_OldInv debug pt ns h mtags line pair hpt hc ho hcore
        | tick now =>
          simp only [apply_op] at hop
          rw [Option.some.injEq] at hop
          rw [← hop]
          first
          | exact cleanup_CountInv now h hc
          | exact cleanup_OldInv now h ho

lemma set_limit_new_state (now0 : Int) (name : String) (m mt : Int) :
    hbm_history_set_limit now0 (hbm_new_object name) m mt =
      ⟨name, [], 0, 0, m, mt, false⟩ := by
  unfold hbm_history_set_limit hbm_new_object hbm_history_cleanup
    hbm_cleanup_time_pass hbm_cleanup_lines_pass
  split <;> split <;> rfl

/-! ## C2: the counting invariant -/

/-- C2 (confirmed): starting from a freshly created log whose limits were
set with `max_lines = m ≥ 1`, any sequence of `add` operations interleaved
with `tick` sweeps keeps `num_lines` equal to the number of linked entries
and below or equal to `max_lines`. -/
theorem hbm_count_invariant_c2 (debug : Bool) (pt : Option String → Int)
    (name : String) (m mt now0 : Int) (ops : List HistOp)
    (h2 : HistoryLogObject) (hm : 1 ≤ m)
    (happ : apply_ops debug pt
        (hbm_history_set_limit now0 (hbm_new_object name) m mt) ops
      = some h2) :
    h2.num_lines = (h2.entries.length : Int) ∧ h2.num_lines ≤ h2.max_lines := by
  have hinit : CountInv (hbm_history_set_limit now0 (hbm_new_object name) m mt) := by
    rw [set_limit_new_state]
    exact ⟨rfl, (by omega : (0 : Int) ≤ m), hm⟩
  have hfin := apply_ops_CountInv debug pt ops _ h2 hinit happ
  exact ⟨hfin.1, hfin.2.1⟩

theorem hbm_count_invariant_c2_witness :
    (1 : Int) ≤ 2 ∧
    ((HistoryLogObject.num_lines
        ⟨"a", [⟨5, [⟨some "time", some "ts"⟩], "x"⟩], 1, 5, 2, 100, true⟩ =
      ((HistoryLogObject.entries
        ⟨"a", [⟨5, [⟨some "time", some "ts"⟩], "x"⟩], 1, 5, 2, 100, true⟩).length : Int)) ∧
      HistoryLogObject.num_lines
        ⟨"a", [⟨5, [⟨some "time", some "ts"⟩], "x"⟩], 1, 5, 2, 100, true⟩ ≤
      HistoryLogObject.max_lines
        ⟨"a", [⟨5, [⟨some "time", some "ts"⟩], "x"⟩], 1, 5, 2, 100, true⟩) :=
  ⟨by decide,
    hbm_count_invariant_c2 false (fun _ => 5) "a" 2 100 0
      [HistOp.add [] "x" "ts", HistOp.tick 50]
      ⟨"a", [⟨5, [⟨some "time", some "ts"⟩], "x"⟩], 1, 5, 2, 100, true⟩
      (by decide) rfl⟩

/-! ## C7: oldest_t is only a lower bound of the entry timestamps -/

/-- C7 counterexample: with `max_lines = 2`, adding entries with parsed
times 10, 20 and then 30 makes the third `add` evict the head (t = 10)
without updating `oldest_t`, leaving `oldest_t = 10` while the remaining
entries have timestamps 20 and 30: `oldest_t` is neither 0 nor the minimum
timestamp, refuting the claimed invariant after an ordinary `add`. -/
theorem hbm_oldest_stale_counterexample :
    apply_ops false
        (fun v => if v = some "T10" then 10 else
          if v = some "T20" then 20 else 30)
        (hbm_history_set_limit 0 (hbm_new_object "a") 2 100000)
        [HistOp.add [⟨some "time", some "T10"⟩] "x" "n1",
         HistOp.add [⟨some "time", some "T20"⟩] "y" "n2",
         HistOp.add [⟨some "time", some "T30"⟩] "z" "n3"]
      = some ⟨"a", [⟨20, [⟨some "time", some "T20"⟩], "y"⟩,
                    ⟨30, [⟨some "time", some "T30"⟩], "z"⟩],
              2, 10, 2, 100000, true⟩ ∧
    ¬((10 : Int) = 0 ∨ (10 : Int) =
        min_t [⟨20, [⟨some "time", some "T20"⟩], "y"⟩,
               ⟨30, [⟨some "time", some "T30"⟩], "z"⟩]) := by
  exact ⟨rfl, by decide⟩

/-- C7 (corrected): the code does not keep `oldest_t` equal to the minimum
timestamp — an `add` that evicts the head leaves `oldest_t` stale — but it
does maintain the weaker invariant that is actually used by the cleanup
fast path: for positive parsed timestamps, after any sequence of adds and
ticks on a log whose limits were set with `max_lines ≥ 1`, `oldest_t` is 0
(empty log) or a positive lower bound of all entry timestamps, restored to
the exact minimum by the next cleanup pass that rescans the log. -/
theorem hbm_oldest_lower_bound_c7 (debug : Bool) (pt : Option String → Int)
    (name : String) (m mt now0 : Int) (ops : List HistOp)
    (h2 : HistoryLogObject) (hpt : ∀ v, 1 ≤ pt v) (hm : 1 ≤ m)
    (happ : apply_ops debug pt
        (hbm_history_set_limit now0 (hbm_new_object name) m mt) ops
      = some h2) :
    h2.oldest_t = 0 ∨ (1 ≤ h2.oldest_t ∧ h2.oldest_t ≤ min_t h2.entries) := by
  have hinitC : CountInv (hbm_history_set_limit now0 (hbm_new_object name) m mt) := by
    rw [set_limit_new_state]
    exact ⟨rfl, (by omega : (0 : Int) ≤ m), hm⟩
  have hinitO : OldInv (hbm_history_set_limit now0 (hbm_new_object name) m mt) := by
    rw [set_limit_new_state]
    refine ⟨?_, Or.inl ⟨rfl, rfl⟩⟩
    intro l hl
    cases hl
  have hfin := (apply_ops_OldInv debug pt hpt ops _ h2 hinitC hinitO happ).2
  rcases hfin.2 with ⟨_, h0⟩ | ⟨_, hpos, hle⟩
  · exact Or.inl h0
  · exact Or.inr ⟨hpos, hle⟩

theorem hbm_oldest_lower_bound_c7_witness :
    HistoryLogObject.oldest_t
      ⟨"w", [⟨5, [⟨some "time", some "t1"⟩], "x"⟩,
             ⟨5, [⟨some "time", some "t2"⟩], "y"⟩], 2, 5, 3, 500, true⟩ = 0 ∨
    (1 ≤ HistoryLogObject.oldest_t
      ⟨"w", [⟨5, [⟨some "time", some "t1"⟩], "x"⟩,
             ⟨5, [⟨some "time", some "t2"⟩], "y"⟩], 2, 5, 3, 500, true⟩ ∧
     HistoryLogObject.oldest_t
      ⟨"w", [⟨5, [⟨some "time", some "t1"⟩], "x"⟩,
             ⟨5, [⟨some "time", some "t2"⟩], "y"⟩], 2, 5, 3, 500, true⟩ ≤
     min_t (HistoryLogObject.entries
      ⟨"w", [⟨5, [⟨some "time", some "t1"⟩], "x"⟩,
             ⟨5, [⟨some "time", some "t2"⟩], "y"⟩], 2, 5, 3, 500, true⟩)) :=
  hbm_oldest_lower_bound_c7 false (fun _ => 5) "w" 3 500 0
    [HistOp.add [] "x" "t1", HistOp.add [] "y" "t2"]
    ⟨"w", [⟨5, [⟨some "time", some "t1"⟩], "x"⟩,
           ⟨5, [⟨some "time", some "t2"⟩], "y"⟩], 2, 5, 3, 500, true⟩
    (fun v => (by decide : (1 : Int) ≤ 5)) (by decide) rfl

/-! ## Supporting lemmas: the persistence round trip -/

lemma rd_mtags_roundtrip :
    ∀ (tags acc : List MessageTag) (rest : List DBItem),
    (∀ m ∈ tags, m.name ≠ none) →
    rd_mtags ((tags.map (fun m => [DBItem.str m.name, DBItem.str m.value])).flatten
        ++ DBItem.str none :: DBItem.str none :: rest) acc
      = some (acc ++ tags, rest) := by
  intro tags
  induction tags with
  | nil =>
    intro acc rest _
    simp [rd_mtags]
  | cons m ts ih =>
    intro acc rest hnm
    have hm : m.name ≠ none := hnm m (by simp)
    simp only [List.map_cons, List.flatten_cons, List.cons_append,
      List.singleton_append, List.append_assoc]
    rw [rd_mtags, if_neg (fun hcon => hm hcon.1)]
    simp only [List.nil_append]
    refine Eq.trans (ih (acc ++ [⟨m.name, m.value⟩]) rest
      (fun x hx => hnm x (by simp [hx]))) ?_
    simp

lemma length_le_flatten_write : ∀ (es : List HistoryLogLine),
    es.length ≤ ((es.map hbm_write_entry).flatten).length := by
  intro es
  induction es with
  | nil => simp
  | cons l ls ih =>
    rw [List.map_cons, List.flatten_cons, List.length_append, List.length_cons]
    have h1 : 1 ≤ (hbm_write_entry l).length := by
      unfold hbm_write_entry
      simp
    omega

lemma rd_entry_loop_step (debug : Bool) (pt : Option String → Int) (ns : String)
    (f : Nat) (h : HistoryLogObject) (l : HistoryLogLine) (rest : List DBItem)
    (hwfl : EntryWF pt l) (hnml : ∀ m ∈ l.mtags, m.name ≠ none)
    (hml : ¬ h.max_lines = 0) (hnoev : ¬ h.max_lines ≤ h.num_lines) :
    rd_entry_loop debug pt ns (f + 1) h (hbm_write_entry l ++ rest) =
      rd_entry_loop debug pt ns f
        (hbm_history_add_line pt ns h l.mtags l.line) rest := by
  obtain ⟨mt, hmt, hmtv⟩ := hwfl
  have hadd : hbm_history_add_core debug pt ns h l.mtags l.line =
      some (hbm_history_add_line pt ns h l.mtags l.line, false) := by
    unfold hbm_history_add_core hbm_add_step
    rw [if_neg hml, if_neg hnoev]
  have hstream : hbm_write_entry l ++ rest =
      DBItem.i32 HISTORYDB_MAGIC_ENTRY_START :: DBItem.i64 l.t ::
        ((l.mtags.map (fun m => [DBItem.str m.name, DBItem.str m.value])).flatten
          ++ DBItem.str none :: DBItem.str none ::
            (DBItem.str (some l.line) ::
              DBItem.i32 HISTORYDB_MAGIC_ENTRY_END :: rest)) := by
    unfold hbm_write_entry
    simp [List.append_assoc]
  have hne1 : ¬ (HISTORYDB_MAGIC_ENTRY_START = HISTORYDB_MAGIC_FILE_END) := by
    decide
  have hne2 : ¬ (HISTORYDB_MAGIC_ENTRY_START ≠ HISTORYDB_MAGIC_ENTRY_START) := by
    decide
  have hne3 : ¬ (HISTORYDB_MAGIC_ENTRY_END ≠ HISTORYDB_MAGIC_ENTRY_END) := by
    decide
  rw [hstream]
  rw [rd_entry_loop]
  simp only [rd_i32, rd_i64]
  rw [if_neg hne1, if_neg hne2]
  rw [rd_mtags_roundtrip l.mtags [] _ hnml]
  simp only [List.nil_append, rd_str]
  rw [if_neg hne3, hadd]

lemma add_line_num_lines (pt : Option String → Int) (ns : String)
    (h : HistoryLogObject) (mtags : List MessageTag) (line : String) :
    (hbm_history_add_line pt ns h mtags line).num_lines = h.num_lines + 1 :=
  rfl

lemma add_line_entries_wf (pt : Option String → Int) (ns : String)
    (h : HistoryLogObject) (l : HistoryLogLine) (hwfl : EntryWF pt l) :
    (hbm_history_add_line pt ns h l.mtags l.line).entries =
      h.entries ++ [l] := by
  obtain ⟨mt, hmt, hmtv⟩ := hwfl
  unfold hbm_history_add_line hbm_duplicate_mtags
  rw [hmt]
  show h.entries ++ [⟨pt mt.value, l.mtags, l.line⟩] = h.entries ++ [l]
  rw [hmtv]

lemma rd_entry_loop_roundtrip (debug : Bool) (pt : Option String → Int)
    (ns : String) :
    ∀ (es : List HistoryLogLine) (h : HistoryLogObject) (fuel : Nat),
    es.length < fuel →
    (∀ l ∈ es, EntryWF pt l) →
    (∀ l ∈ es, ∀ m ∈ l.mtags, m.name ≠ none) →
    h.num_lines = (h.entries.length : Int) →
    h.num_lines + es.length ≤ h.max_lines →
    ∃ h2, rd_entry_loop debug pt ns fuel h
        ((es.map hbm_write_entry).flatten
          ++ [DBItem.i32 HISTORYDB_MAGIC_FILE_END]) = some h2 ∧
      h2.name = h.name ∧ h2.entries = h.entries ++ es ∧
      h2.max_lines = h.max_lines ∧ h2.max_time = h.max_time := by
  intro es
  induction es with
  | nil =>
    intro h fuel hfuel _ _ _ _
    obtain ⟨f, rfl⟩ : ∃ f, fuel = f + 1 := ⟨fuel - 1, by omega⟩
    refine ⟨h, ?_, rfl, by simp, rfl, rfl⟩
    rw [List.map_nil, List.flatten_nil, List.nil_append, rd_entry_loop]
    simp [rd_i32]
  | cons l ls ih =>
    intro h fuel hfuel hwf hnm hnum hcap
    obtain ⟨f, rfl⟩ : ∃ f, fuel = f + 1 := ⟨fuel - 1, by omega⟩
    rw [List.length_cons] at hcap hfuel
    push_cast at hcap
    have hlen0 : (0 : Int) ≤ (h.entries.length : Int) := by positivity
    have hls0 : (0 : Int) ≤ (ls.length : Int) := by positivity
    have hml : ¬ h.max_lines = 0 := by omega
    have hnoev : ¬ h.max_lines ≤ h.num_lines := by omega
    have hwfl : EntryWF pt l := hwf l (by simp)
    set h' := hbm_history_add_line pt ns h l.mtags l.line with hh'
    have hents : h'.entries = h.entries ++ [l] :=
      add_line_entries_wf pt ns h l hwfl
    have hnum' : h'.num_lines = (h'.entries.length : Int) := by
      rw [hh', add_line_num_lines, hents, List.length_append,
        List.length_singleton, hnum]
      push_cast
      ring
    have hcap' : h'.num_lines + (ls.length : Int) ≤ h'.max_lines := by
      have hml' : h'.max_lines = h.max_lines := rfl
      rw [hh', add_line_num_lines, hml']
      omega
    obtain ⟨h2, hloop, hname2, hents2, hml2, hmt2⟩ :=
      ih h' f (by omega) (fun x hx => hwf x (by simp [hx]))
        (fun x hx => hnm x (by simp [hx])) hnum' hcap'
    refine ⟨h2, ?_, ?_, ?_, ?_, ?_⟩
    · rw [List.map_cons, List.flatten_cons, List.append_assoc]
      rw [rd_entry_loop_step debug pt ns f h l _ hwfl
        (hnm l (by simp)) hml hnoev]
      exact hloop
    · rw [hname2]
      rfl
    · rw [hents2, hents, List.append_assoc, List.singleton_append]
    · rw [hml2]
      rfl
    · rw [hmt2]
      rfl

/-! ## C3: the write/read round trip -/

/-- C3 (confirmed): writing a log with the persistence flush framing and
re-reading the produced stream into an empty log with the same name and
live limits (the situation after a restart, when the channel still exists
and carries the persistence mode) reproduces the identical name, limits,
and ordered entry sequence — timestamps, message tags and payload lines —
and leaves the log clean (`dirty = false`).  The hypotheses state that the
source log is one the module itself built: its counter matches the list,
it respects its limits, every entry's `t` agrees with its "time" tag (true
of every entry created by `add`) and tag names are non-NULL. -/
theorem hbm_write_read_roundtrip_c3 (debug : Bool) (pt : Option String → Int)
    (ns : String) (pre post : String) (h h0 : HistoryLogObject)
    (lookup : String → Option HistoryLogObject)
    (hwf : ∀ l ∈ h.entries, EntryWF pt l)
    (hnm : ∀ l ∈ h.entries, ∀ m ∈ l.mtags, m.name ≠ none)
    (hnum : h.num_lines = (h.entries.length : Int))
    (hcap : h.num_lines ≤ h.max_lines)
    (hlook : lookup h.name = some h0)
    (h0name : h0.name = h.name) (h0ent : h0.entries = [])
    (h0num : h0.num_lines = 0) (h0maxl : h0.max_lines = h.max_lines)
    (h0maxt : h0.max_time = h.max_time) :
    ∃ h2, hbm_read_db_items debug pt ns pre post lookup
        (hbm_write_db_items pre post h) = HbmReadResult.loaded h2 ∧
      h2.name = h.name ∧ h2.max_lines = h.max_lines ∧
      h2.max_time = h.max_time ∧ h2.entries = h.entries ∧
      h2.dirty = false := by
  have hstream : hbm_write_db_items pre post h =
      DBItem.i32 HISTORYDB_MAGIC_FILE_START :: DBItem.i32 5000 ::
      DBItem.str (some pre) :: DBItem.str (some post) ::
      DBItem.str (some h.name) :: DBItem.i64 h.max_lines ::
      DBItem.i64 h.max_time ::
        ((h.entries.map hbm_write_entry).flatten
          ++ [DBItem.i32 HISTORYDB_MAGIC_FILE_END]) := by
    unfold hbm_write_db_items
    simp
  obtain ⟨h2, hloop, hname2, hents2, hml2, hmt2⟩ :=
    rd_entry_loop_roundtrip debug pt ns h.entries h0
      (((h.entries.map hbm_write_entry).flatten
        ++ [DBItem.i32 HISTORYDB_MAGIC_FILE_END]).length + 1)
      (by rw [List.length_append]
          have := length_le_flatten_write h.entries
          omega)
      hwf hnm
      (by rw [h0num, h0ent]; rfl)
      (by rw [h0num, h0maxl]
          omega)
  have hv1 : ¬ ((5000 : Nat) < 4999) := by decide
  have hv2 : ¬ ((5000 : Nat) < 5000) := by decide
  have hmagic : ¬ (HISTORYDB_MAGIC_FILE_START ≠ HISTORYDB_MAGIC_FILE_START) := by
    decide
  have hhash : ¬ ((some pre ≠ some pre) ∨ (some post ≠ some post)) := by
    simp
  refine ⟨{ h2 with dirty := false }, ?_, ?_, ?_, ?_, ?_, rfl⟩
  · rw [hstream]
    unfold hbm_read_db_items
    simp only [rd_i32, rd_str, rd_i64]
    rw [if_neg hmagic, if_neg hv1, if_neg hv2, if_neg hhash, hlook]
    simp only [hloop]
  · show h2.name = h.name
    rw [hname2, h0name]
  · show h2.max_lines = h.max_lines
    rw [hml2, h0maxl]
  · show h2.max_time = h.max_time
    rw [hmt2, h0maxt]
  · show h2.entries = h.entries
    rw [hents2, h0ent, List.nil_append]

theorem hbm_write_read_roundtrip_c3_witness :
    ∃ h2, hbm_read_db_items false (fun _ => 5) "ts" "p" "q"
        (fun n => if n = "#c" then
          some ⟨"#c", [], 0, 0, 3, 1000, false⟩ else none)
        (hbm_write_db_items "p" "q"
          ⟨"#c", [⟨5, [⟨some "time", some "T"⟩], "hi"⟩], 1, 5, 3, 1000, true⟩)
      = HbmReadResult.loaded h2 ∧
      h2.name = HistoryLogObject.name
        ⟨"#c", [⟨5, [⟨some "time", some "T"⟩], "hi"⟩], 1, 5, 3, 1000, true⟩ ∧
      h2.max_lines = HistoryLogObject.max_lines
        ⟨"#c", [⟨5, [⟨some "time", some "T"⟩], "hi"⟩], 1, 5, 3, 1000, true⟩ ∧
      h2.max_time = HistoryLogObject.max_time
        ⟨"#c", [⟨5, [⟨some "time", some "T"⟩], "hi"⟩], 1, 5, 3, 1000, true⟩ ∧
      h2.entries = HistoryLogObject.entries
        ⟨"#c", [⟨5, [⟨some "time", some "T"⟩], "hi"⟩], 1, 5, 3, 1000, true⟩ ∧
      h2.dirty = false :=
  hbm_write_read_roundtrip_c3 false (fun _ => 5) "ts" "p" "q"
    ⟨"#c", [⟨5, [⟨some "time", some "T"⟩], "hi"⟩], 1, 5, 3, 1000, true⟩
    ⟨"#c", [], 0, 0, 3, 1000, false⟩
    (fun n => if n = "#c" then some ⟨"#c", [], 0, 0, 3, 1000, false⟩ else none)
    (by intro l hl
        simp only [List.mem_singleton] at hl
        subst hl
        exact ⟨⟨some "time", some "T"⟩, rfl, rfl⟩)
    (by intro l hl m hm
        simp only [List.mem_singleton] at hl
        subst hl
        simp only [List.mem_singleton] at hm
        subst hm
        exact Option.some_ne_none _)
    (by decide) (by decide) (by decide) rfl rfl rfl rfl rfl
